import Mathlib

/-!
Verification of the segregated-free-list memory allocator in src/mm.c.

The development contains two shallow embeddings of the allocator, both
translated directly from the C source:

* a structured model of the free-list directory (a list of sixteen buckets,
  each a list of free blocks carrying their address and size), used for the
  general theorems about `mm_insert_fblock`, `find_fit` and `coalesce`
  (the doubly linked bucket lists of the C code are represented as Lean
  lists; the pointer splices of the C code become the corresponding list
  operations);

* a flat model (`MMState`) of the word-addressed heap together with the
  sixteen bucket head pointers, in which every function of mm.c
  (`mm_init`, `extend_heap`, `coalesce`, `find_fit`, `place`, `mm_free`,
  `mm_malloc`, `mm_realloc`, `mm_remove_fblock`, `mm_insert_fblock`,
  `mm_check`) is transcribed statement by statement.  C while loops become
  fuel-bounded recursion; the fuel is always at least the number of heap
  words, which bounds the length of every well-formed block or bucket walk.
  The arena primitive `mem_sbrk` lives in memlib.c, which is not part of
  the sources; it is modelled from the spec (section 4.1).

Machine integers: the allocator stores packed words `size | alloc` where
`size` is far below 2^64 in every run considered here, so words are
modelled as `Nat` and the C mask `& ~(DSIZE-1)` becomes `/ 16 * 16`,
which agrees with the mask for all values below 2^64.  `memcpy` and
`memmove` are modelled at word granularity (all copies performed by the
allocator on the inputs considered here are whole numbers of words;
`memmove` semantics are obtained by snapshotting the source words before
writing, which is overlap-safe by construction).
-/

/-! ### Constants (mm.c lines 30-60) -/

def WSIZE : Nat := 8
def DSIZE : Nat := 16
def CHUNKSIZE : Nat := 128
def LISTS : Nat := 16

/-- PACK(size, alloc) = size | alloc (mm.c line 37). -/
def PACK (size alloc : Nat) : Nat := size ||| alloc

/-! ### The bucket function mm_find_list_idx (mm.c lines 383-397)

The C loop `while ((idx < LISTS - 1) && (size > 32))` increments `idx`
each iteration, so it runs at most `LISTS - 1` times; the fuel argument
makes that bound explicit and is passed as `LISTS - 1`, which is exact. -/

def findIdxGo (fuel size idx : Nat) : Nat :=
  match fuel with
  | 0 => idx
  | f + 1 =>
    if idx < LISTS - 1 ∧ size > 32 then
      findIdxGo f (if idx > LISTS / 2 then size >>> 8 else size >>> 1) (idx + 1)
    else idx

def mm_find_list_idx (size : Nat) : Nat := findIdxGo (LISTS - 1) size 0

/-- The bucket function exactly as the spec's pseudocode states it
(spec section 3, "Bucket function"): `idx = 0; while idx < 15 and
size > 32: if idx > 8: size >>= 8 else size >>= 1; idx += 1`. -/
def specBucketGo (fuel size idx : Nat) : Nat :=
  match fuel with
  | 0 => idx
  | f + 1 =>
    if idx < 15 ∧ size > 32 then
      specBucketGo f (if idx > 8 then size >>> 8 else size >>> 1) (idx + 1)
    else idx

def bucket_idx_spec (size : Nat) : Nat := specBucketGo 15 size 0

/-! ### Structured model of the free-list directory

`FBlock` is a free block as the directory sees it: its payload address
and the size stored in its header.  A bucket is the list of its blocks
in link order; the directory is the list of the sixteen buckets. -/

structure FBlock where
  addr : Nat
  size : Nat
deriving DecidableEq, Repr

abbrev FDir := List (List FBlock)

/-- The address-ordered insertion walk of mm_insert_fblock (mm.c lines
449-475) after it has advanced at least once, so that `curr` has a
predecessor.  Transcribes the `while (next && (bp > next))` walk and the
four insertion cases.  C case 3 (`!next && bp < curr`, line 466) is dead
code: this function is only entered under the guard `bp > curr`, matching
the C loop which only advances `curr` to a block below `bp`. -/
def insOrdGo (b curr : FBlock) (rest : List FBlock) : List FBlock :=
  match rest with
  | [] =>
    if b.addr > curr.addr then [curr, b]
    else [curr]
  | n :: rest2 =>
    if b.addr > n.addr then curr :: insOrdGo b n rest2
    else if b.addr > curr.addr ∧ b.addr < n.addr then curr :: b :: n :: rest2
    else curr :: n :: rest2

/-- Address-ordered insertion (mm.c lines 446-481).  The outer match
handles the empty bucket (lines 476-480) and the case where the walk
does not advance, in which `prev` is null and case 1 (insert at head,
line 457) or case 4 (insert in the middle, line 470) applies.  When no
case fires (`bp` equal to an existing address, impossible for distinct
blocks) the list is returned unchanged, as the C code inserts nothing. -/
def insertOrdered (b : FBlock) (l : List FBlock) : List FBlock :=
  match l with
  | [] => [b]
  | c :: rest =>
    match rest with
    | [] =>
      if b.addr < c.addr then [b, c]
      else if b.addr > c.addr then [c, b]
      else [c]
    | n :: rest2 =>
      if b.addr > n.addr then c :: insOrdGo b n rest2
      else if b.addr < c.addr then b :: c :: n :: rest2
      else if b.addr > c.addr ∧ b.addr < n.addr then c :: b :: n :: rest2
      else c :: n :: rest2

/-- Insertion into the bucket of index `idx` (mm.c lines 446 and 482-494):
address order when `idx > (LISTS-1)/2`, otherwise at the head. -/
def insertCore (b : FBlock) (idx : Nat) (l : List FBlock) : List FBlock :=
  if idx > (LISTS - 1) / 2 then insertOrdered b l
  else b :: l

/-- mm_insert_fblock on the directory.  `none` models the C index hint
`-1`, in which case the index is recomputed from the block's size
(mm.c lines 443-444). -/
def mm_insert_fblock (b : FBlock) (idxO : Option Nat) (dir : FDir) : FDir :=
  let idx := idxO.getD (mm_find_list_idx b.size)
  dir.set idx (insertCore b idx (dir.getD idx []))

/-- mm_remove_fblock on the directory (mm.c lines 404-422).  Splicing a
block out of a well-formed doubly linked bucket by its stored neighbour
pointers removes exactly the first (only) occurrence of its address,
which on the list representation is `List.eraseP`. -/
def mm_remove_fblock (b : FBlock) (idxO : Option Nat) (dir : FDir) : FDir :=
  let idx := idxO.getD (mm_find_list_idx b.size)
  dir.set idx ((dir.getD idx []).eraseP (fun c => c.addr == b.addr))

/-- The inner walk of find_fit over one bucket (mm.c lines 187-195):
return the first block whose size is at least `asize`, spliced out of
the bucket (the C code removes it with `mm_remove_fblock(bp, idx)`). -/
def ffBucket (asize : Nat) (l : List FBlock) : Option (FBlock × List FBlock) :=
  match l with
  | [] => none
  | b :: rest =>
    if asize ≤ b.size then some (b, rest)
    else
      match ffBucket asize rest with
      | some (f, rest2) => some (f, b :: rest2)
      | none => none

/-- The outer loop of find_fit (mm.c lines 184-197): `while (idx < LISTS)`
advance through the buckets.  `idx` increases every iteration, so fuel
`LISTS` is exact. -/
def ffFrom (asize : Nat) (dir : FDir) (fuel idx : Nat) : Option FBlock × FDir :=
  match fuel with
  | 0 => (none, dir)
  | f + 1 =>
    if idx < LISTS then
      match ffBucket asize (dir.getD idx []) with
      | some (b, l2) => (some b, dir.set idx l2)
      | none => ffFrom asize dir f (idx + 1)
    else (none, dir)

/-- find_fit (mm.c lines 179-199), starting at the bucket of `asize`. -/
def find_fit (asize : Nat) (dir : FDir) : Option FBlock × FDir :=
  ffFrom asize dir LISTS (mm_find_list_idx asize)

/-- coalesce (mm.c lines 106-146) on the structured model.  The inputs
are the values the C code reads from the boundary tags: the freed
block's payload address `bp` and header size `size`, the left
neighbour's size and allocation bit (read through the previous block's
footer) and the right neighbour's (read through the next block's
header).  The next block's address is `bp + size`, the previous block's
`bp - prevSize`.  The returned triple is the merged block's address,
the merged size written into its header and footer, and the updated
directory. -/
def coalesce (bp size prevSize : Nat) (prevAlloc : Bool) (nextSize : Nat) (nextAlloc : Bool)
    (dir : FDir) : Nat × Nat × FDir :=
  if prevAlloc ∧ nextAlloc then
    (bp, size, mm_insert_fblock ⟨bp, size⟩ none dir)
  else if prevAlloc ∧ ¬nextAlloc then
    let d1 := mm_remove_fblock ⟨bp + size, nextSize⟩ none dir
    let s2 := size + nextSize
    (bp, s2, mm_insert_fblock ⟨bp, s2⟩ none d1)
  else if ¬prevAlloc ∧ nextAlloc then
    let d1 := mm_remove_fblock ⟨bp - prevSize, prevSize⟩ none dir
    let s2 := size + prevSize
    (bp - prevSize, s2, mm_insert_fblock ⟨bp - prevSize, s2⟩ none d1)
  else
    let d1 := mm_remove_fblock ⟨bp + size, nextSize⟩ none dir
    let d2 := mm_remove_fblock ⟨bp - prevSize, prevSize⟩ none d1
    let s2 := size + prevSize + nextSize
    (bp - prevSize, s2, mm_insert_fblock ⟨bp - prevSize, s2⟩ none d2)

/-- The flattening of the buckets from index `idx` upward, in walk order:
this is the sequence of blocks find_fit inspects. -/
def bucketsFrom (dir : FDir) (idx : Nat) : List FBlock :=
  (List.range' idx (LISTS - idx)).flatMap (fun j => dir.getD j [])

/-! ### Flat model of the heap

`mem` is the arena as a list of words (word `w` holds the bytes at
addresses `8*w .. 8*w+7`); `brk` is the current break in bytes;
`avail` is the number of bytes the host will still grant; `free_lists`
holds the sixteen bucket head pointers and `heap_listp` the traversal
base, as in mm.c lines 62-63.  The null pointer is the address 0. -/

structure MMState where
  mem : List Nat
  brk : Nat
  avail : Nat
  free_lists : List Nat
  heap_listp : Nat
deriving Repr, DecidableEq, Inhabited

/-- GET(p) (mm.c line 40): read the word at byte address p. -/
def GET (s : MMState) (p : Nat) : Nat := s.mem.getD (p / 8) 0

/-- PUT(p, val) (mm.c line 41): write the word at byte address p. -/
def PUT (s : MMState) (p v : Nat) : MMState :=
  { s with mem := s.mem.set (p / 8) v }

/-- GET_SIZE(p) (mm.c line 44): mask off the low four bits. -/
def GET_SIZE (s : MMState) (p : Nat) : Nat := GET s p / 16 * 16

/-- GET_ALLOC(p) (mm.c line 45): bit 0 of the word at p. -/
def GET_ALLOC (s : MMState) (p : Nat) : Nat := GET s p % 2

/-- HDRP(bp) (mm.c line 48). -/
def HDRP (bp : Nat) : Nat := bp - 8

/-- FTRP(bp) (mm.c line 49). -/
def FTRP (s : MMState) (bp : Nat) : Nat := bp + GET_SIZE s (HDRP bp) - 16

/-- NEXT_BLKP(bp) (mm.c line 52). -/
def NEXT_BLKP (s : MMState) (bp : Nat) : Nat := bp + GET_SIZE s (bp - 8)

/-- PREV_BLKP(bp) (mm.c line 53). -/
def PREV_BLKP (s : MMState) (bp : Nat) : Nat := bp - GET_SIZE s (bp - 16)

/-- NEXT_FBLK(bp) (mm.c line 56): the forward link cell of a free block. -/
def NEXT_FBLK (bp : Nat) : Nat := bp

/-- PREV_FBLK(bp) (mm.c line 57): the backward link cell of a free block. -/
def PREV_FBLK (bp : Nat) : Nat := bp + 8

/-- Modelled from the spec: `mem_sbrk` of memlib.c is not among the
sources.  Spec section 4.1: `extend(n_bytes)` returns the prior arena
end and advances it, or fails (out of memory); the model fails when the
host budget `avail` is exhausted.  Fresh words are zero. -/
def mem_sbrk (s : MMState) (size : Nat) : Option Nat × MMState :=
  if size ≤ s.avail then
    (some s.brk,
     { s with brk := s.brk + size,
              mem := s.mem ++ List.replicate (size / 8) 0,
              avail := s.avail - size })
  else (none, s)

/-- mm_init (mm.c lines 78-96): clear the directory, obtain four words,
write the pad, prologue header and footer and epilogue header, and set
the traversal base past the prologue. -/
def mm_init (avail : Nat) : Option MMState :=
  let s0 : MMState :=
    { mem := [], brk := 0, avail := avail,
      free_lists := List.replicate LISTS 0, heap_listp := 0 }
  match mem_sbrk s0 (4 * WSIZE) with
  | (none, _) => none
  | (some hp, s1) =>
    let s2 := PUT s1 hp 0
    let s3 := PUT s2 (hp + 1 * WSIZE) (PACK DSIZE 1)
    let s4 := PUT s3 (hp + 2 * WSIZE) (PACK DSIZE 1)
    let s5 := PUT s4 (hp + 3 * WSIZE) (PACK 0 1)
    some { s5 with heap_listp := hp + DSIZE }

/-- The index recomputation for the `-1` hint (mm.c lines 408-409 and
443-444). -/
def flFindIdx (s : MMState) (bp : Nat) : Nat :=
  mm_find_list_idx (GET_SIZE s (HDRP bp))

/-- mm_remove_fblock (mm.c lines 404-422) on the flat heap: splice the
block out through its stored links; when it was the bucket head, move
the head to its successor. -/
def mm_remove_fblock_f (s : MMState) (bp : Nat) (idxO : Option Nat) : MMState :=
  let pre := GET s (PREV_FBLK bp)
  let suc := GET s (NEXT_FBLK bp)
  let idx := idxO.getD (flFindIdx s bp)
  if pre ≠ 0 ∧ suc ≠ 0 then
    let s1 := PUT s (NEXT_FBLK pre) suc
    PUT s1 (PREV_FBLK suc) pre
  else if pre ≠ 0 ∧ suc = 0 then
    PUT s (NEXT_FBLK pre) 0
  else if pre = 0 ∧ suc ≠ 0 then
    let s1 := PUT s (PREV_FBLK suc) 0
    { s1 with free_lists := s1.free_lists.set idx suc }
  else
    { s with free_lists := s.free_lists.set idx 0 }

/-- The walk `while (next && (bp > next))` of mm_insert_fblock (mm.c line
451).  The walk visits pairwise distinct list nodes, of which there are
fewer than the number of heap words, so the fuel passed by the caller
(one more than the word count) never runs out on a well-formed bucket. -/
def insWalk (s : MMState) (bp : Nat) (curr : Nat) (fuel : Nat) : Nat :=
  match fuel with
  | 0 => curr
  | f + 1 =>
    let next := GET s curr
    if next ≠ 0 ∧ bp > next then insWalk s bp next f else curr

/-- mm_insert_fblock (mm.c lines 437-495) on the flat heap. -/
def mm_insert_fblock_f (s : MMState) (bp : Nat) (idxO : Option Nat) : MMState :=
  let idx := idxO.getD (flFindIdx s bp)
  if idx > (LISTS - 1) / 2 then
    let curr0 := s.free_lists.getD idx 0
    if curr0 ≠ 0 then
      let curr := insWalk s bp curr0 (s.mem.length + 1)
      let next := GET s curr
      let pre := GET s (PREV_FBLK curr)
      if pre = 0 ∧ bp < curr then
        let s1 := PUT s (NEXT_FBLK bp) curr
        let s2 := PUT s1 (PREV_FBLK curr) bp
        let s3 := PUT s2 (PREV_FBLK bp) 0
        { s3 with free_lists := s3.free_lists.set idx bp }
      else if next = 0 ∧ bp > curr then
        let s1 := PUT s (NEXT_FBLK bp) 0
        let s2 := PUT s1 (PREV_FBLK bp) curr
        PUT s2 (NEXT_FBLK curr) bp
      else if next = 0 ∧ bp < curr then
        let s1 := PUT s (NEXT_FBLK pre) bp
        let s2 := PUT s1 (PREV_FBLK bp) pre
        PUT s2 (PREV_FBLK curr) bp
      else if next ≠ 0 ∧ bp > curr ∧ bp < next then
        let s1 := PUT s (NEXT_FBLK bp) next
        let s2 := PUT s1 (PREV_FBLK bp) curr
        let s3 := PUT s2 (NEXT_FBLK curr) bp
        PUT s3 (PREV_FBLK next) bp
      else s
    else
      let s1 := PUT s (NEXT_FBLK bp) 0
      let s2 := PUT s1 (PREV_FBLK bp) 0
      { s2 with free_lists := s2.free_lists.set idx bp }
  else
    if s.free_lists.getD idx 0 ≠ 0 then
      let s1 := PUT s (NEXT_FBLK bp) (s.free_lists.getD idx 0)
      let s2 := PUT s1 (PREV_FBLK (s1.free_lists.getD idx 0)) bp
      let s3 := PUT s2 (PREV_FBLK bp) 0
      { s3 with free_lists := s3.free_lists.set idx bp }
    else
      let s1 := PUT s (NEXT_FBLK bp) 0
      let s2 := PUT s1 (PREV_FBLK bp) 0
      { s2 with free_lists := s2.free_lists.set idx bp }

/-- coalesce (mm.c lines 106-146) on the flat heap, step by step in
program order; every macro argument is evaluated against the state
current at that statement, as in C. -/
def coalesce_f (s : MMState) (bp : Nat) : Nat × MMState :=
  let prev_alloc := GET_ALLOC s (FTRP s (PREV_BLKP s bp))
  let next_alloc := GET_ALLOC s (HDRP (NEXT_BLKP s bp))
  let size := GET_SIZE s (HDRP bp)
  if prev_alloc ≠ 0 ∧ next_alloc ≠ 0 then
    (bp, mm_insert_fblock_f s bp none)
  else if prev_alloc ≠ 0 ∧ next_alloc = 0 then
    let s1 := mm_remove_fblock_f s (NEXT_BLKP s bp) none
    let size2 := size + GET_SIZE s1 (HDRP (NEXT_BLKP s1 bp))
    let s2 := PUT s1 (FTRP s1 (NEXT_BLKP s1 bp)) (PACK size2 0)
    let s3 := PUT s2 (HDRP bp) (PACK size2 0)
    (bp, mm_insert_fblock_f s3 bp none)
  else if prev_alloc = 0 ∧ next_alloc ≠ 0 then
    let s1 := mm_remove_fblock_f s (PREV_BLKP s bp) none
    let size2 := size + GET_SIZE s1 (HDRP (PREV_BLKP s1 bp))
    let s2 := PUT s1 (FTRP s1 bp) (PACK size2 0)
    let s3 := PUT s2 (HDRP (PREV_BLKP s2 bp)) (PACK size2 0)
    (PREV_BLKP s3 bp, mm_insert_fblock_f s3 (PREV_BLKP s3 bp) none)
  else
    let s1 := mm_remove_fblock_f s (NEXT_BLKP s bp) none
    let s2 := mm_remove_fblock_f s1 (PREV_BLKP s1 bp) none
    let size2 := size + GET_SIZE s2 (HDRP (PREV_BLKP s2 bp)) +
      GET_SIZE s2 (FTRP s2 (NEXT_BLKP s2 bp))
    let s3 := PUT s2 (HDRP (PREV_BLKP s2 bp)) (PACK size2 0)
    let s4 := PUT s3 (FTRP s3 (NEXT_BLKP s3 bp)) (PACK size2 0)
    (PREV_BLKP s4 bp, mm_insert_fblock_f s4 (PREV_BLKP s4 bp) none)

/-- extend_heap (mm.c lines 154-171): round `words` up to even, obtain
the bytes, write the free block's header and footer and the new
epilogue header.  No coalescing and no insertion (line 169 is commented
out in the source). -/
def extend_heap (s : MMState) (words : Nat) : Option Nat × MMState :=
  let size := if words % 2 = 1 then (words + 1) * WSIZE else words * WSIZE
  match mem_sbrk s size with
  | (none, s1) => (none, s1)
  | (some bp, s1) =>
    let s2 := PUT s1 (HDRP bp) (PACK size 0)
    let s3 := PUT s2 (FTRP s2 bp) (PACK size 0)
    let s4 := PUT s3 (HDRP (NEXT_BLKP s3 bp)) (PACK 0 1)
    (some bp, s4)

/-- The inner walk of find_fit (mm.c lines 187-195) on the flat heap. -/
def ffWalk (s : MMState) (asize bp fuel : Nat) : Option Nat :=
  match fuel with
  | 0 => none
  | f + 1 =>
    if bp ≠ 0 then
      if asize ≤ GET_SIZE s (HDRP bp) then some bp
      else ffWalk s asize (GET s bp) f
    else none

/-- The outer loop of find_fit (mm.c lines 184-197) on the flat heap;
on a hit the block is removed with the index hint, as in line 191. -/
def ffOuter (s : MMState) (asize : Nat) (fuel idx : Nat) : Option Nat × MMState :=
  match fuel with
  | 0 => (none, s)
  | f + 1 =>
    if idx < LISTS then
      match ffWalk s asize (s.free_lists.getD idx 0) (s.mem.length + 1) with
      | some bp => (some bp, mm_remove_fblock_f s bp (some idx))
      | none => ffOuter s asize f (idx + 1)
    else (none, s)

/-- find_fit (mm.c lines 179-199) on the flat heap. -/
def find_fit_f (s : MMState) (asize : Nat) : Option Nat × MMState :=
  ffOuter s asize LISTS (mm_find_list_idx asize)

/-- place (mm.c lines 205-222): split when the remainder is at least
4*WSIZE, otherwise allocate the whole block. -/
def place (s : MMState) (bp asize : Nat) : MMState :=
  let bsize := GET_SIZE s (HDRP bp)
  let remain := bsize - asize
  if remain ≥ 4 * WSIZE then
    let s1 := PUT s (HDRP bp) (PACK asize 1)
    let s2 := PUT s1 (FTRP s1 bp) (PACK asize 1)
    let s3 := PUT s2 (HDRP (NEXT_BLKP s2 bp)) (PACK remain 0)
    let s4 := PUT s3 (FTRP s3 (NEXT_BLKP s3 bp)) (PACK remain 0)
    mm_insert_fblock_f s4 (NEXT_BLKP s4 bp) none
  else
    let s1 := PUT s (HDRP bp) (PACK bsize 1)
    PUT s1 (FTRP s1 bp) (PACK bsize 1)

/-- mm_free (mm.c lines 228-238). -/
def mm_free (s : MMState) (bp : Nat) : MMState :=
  if bp = 0 then s
  else
    let size := GET_SIZE s (HDRP bp)
    let s1 := PUT s (HDRP bp) (PACK size 0)
    let s2 := PUT s1 (FTRP s1 bp) (PACK size 0)
    (coalesce_f s2 bp).2

/-- The size adjustment shared by mm_malloc and mm_realloc (mm.c lines
261-264 and 310-313). -/
def adjSize (size : Nat) : Nat :=
  if size ≤ DSIZE then 2 * DSIZE
  else DSIZE * ((size + DSIZE + (DSIZE - 1)) / DSIZE)

/-- mm_malloc (mm.c lines 248-285). -/
def mm_malloc (s : MMState) (size : Nat) : Nat × MMState :=
  if size = 0 then (0, s)
  else
    let asize := adjSize size
    match find_fit_f s asize with
    | (some bp, s1) => (bp, place s1 bp asize)
    | (none, s1) =>
      let extendsize := max asize CHUNKSIZE
      match extend_heap s1 (extendsize / WSIZE) with
      | (none, s2) => (0, s2)
      | (some bp, s2) => (bp, place s2 bp asize)

/-- Write the words `ws` at consecutive word addresses from `dst`. -/
def putWords (s : MMState) (dst : Nat) (ws : List Nat) : MMState :=
  match ws with
  | [] => s
  | w :: rest => putWords (PUT s dst w) (dst + 8) rest

/-- memcpy / memmove of `k` words from `src` to `dst`: the source words
are snapshotted before any write, which is exactly the overlap-safe
semantics of memmove (and agrees with memcpy on disjoint ranges). -/
def memWords (s : MMState) (dst src k : Nat) : MMState :=
  putWords s dst ((List.range k).map (fun i => GET s (src + 8 * i)))

/-- The copy-size computation of the realloc fallback (mm.c lines
368-370): `copySize = GET_SIZE(HDRP(oldptr)); if (size < copySize)
copySize = size;`. -/
def copySizeOf (size bsize : Nat) : Nat :=
  if size < bsize then size else bsize

/-- mm_realloc (mm.c lines 294-376), transcribed branch by branch:
free on size 0; malloc on null; shrink in place; grow into the free
right neighbour; extend the heap when the right neighbour is the
epilogue; grow into the free left neighbour; otherwise the
malloc-copy-free fallback. -/
def mm_realloc (s : MMState) (ptr size : Nat) : Nat × MMState :=
  if size = 0 then (0, mm_free s ptr)
  else if ptr = 0 then mm_malloc s size
  else
    let asize := adjSize size
    if asize < GET_SIZE s (HDRP ptr) then
      let remain := GET_SIZE s (HDRP ptr) - asize
      if remain ≥ 4 * WSIZE then
        let s1 := PUT s (HDRP ptr) (PACK asize 1)
        let s2 := PUT s1 (FTRP s1 ptr) (PACK asize 1)
        let s3 := PUT s2 (HDRP (NEXT_BLKP s2 ptr)) (PACK remain 0)
        let s4 := PUT s3 (FTRP s3 (NEXT_BLKP s3 ptr)) (PACK remain 0)
        (ptr, mm_insert_fblock_f s4 (NEXT_BLKP s4 ptr) none)
      else (ptr, s)
    else
      let cmbsize_next := GET_SIZE s (HDRP ptr) + GET_SIZE s (HDRP (NEXT_BLKP s ptr))
      let cmbsize_prev := GET_SIZE s (HDRP ptr) + GET_SIZE s (HDRP (PREV_BLKP s ptr))
      if GET_ALLOC s (HDRP (NEXT_BLKP s ptr)) = 0 ∧ cmbsize_next ≥ asize then
        let s1 := mm_remove_fblock_f s (NEXT_BLKP s ptr) none
        let remain := GET_SIZE s1 (HDRP (NEXT_BLKP s1 ptr)) -
          (asize - GET_SIZE s1 (HDRP ptr))
        let s2 := PUT s1 (HDRP ptr) (PACK asize 1)
        let s3 := PUT s2 (FTRP s2 ptr) (PACK asize 1)
        let s4 := PUT s3 (HDRP (NEXT_BLKP s3 ptr)) (PACK remain 0)
        let s5 := PUT s4 (FTRP s4 (NEXT_BLKP s4 ptr)) (PACK remain 0)
        (ptr, mm_insert_fblock_f s5 (NEXT_BLKP s5 ptr) none)
      else if GET_SIZE s (HDRP (NEXT_BLKP s ptr)) = 0 then
        let diff := asize - GET_SIZE s (HDRP ptr)
        match extend_heap s (diff / WSIZE) with
        | (none, s1) => (0, s1)
        | (some _, s1) =>
          let s2 := PUT s1 (FTRP s1 (NEXT_BLKP s1 ptr))
            (PACK (GET_SIZE s1 (HDRP ptr) + diff) 1)
          let s3 := PUT s2 (HDRP ptr) (PACK (GET_SIZE s2 (HDRP ptr) + diff) 1)
          (ptr, s3)
      else if GET_ALLOC s (HDRP (PREV_BLKP s ptr)) = 0 ∧ cmbsize_prev ≥ asize then
        let newptr := PREV_BLKP s ptr
        let cmbsize := GET_SIZE s (HDRP newptr) + GET_SIZE s (HDRP ptr)
        let s1 := mm_remove_fblock_f s newptr none
        let s2 := memWords s1 newptr ptr (GET_SIZE s1 (HDRP ptr) / 8)
        let s3 := PUT s2 (HDRP newptr) (PACK cmbsize 1)
        let s4 := PUT s3 (FTRP s3 newptr) (PACK cmbsize 1)
        (newptr, s4)
      else
        match mm_malloc s size with
        | (0, s1) => (0, s1)
        | (newptr, s1) =>
          let copySize := copySizeOf size (GET_SIZE s1 (HDRP ptr))
          let s2 := memWords s1 newptr ptr (copySize / 8)
          let s3 := mm_free s2 ptr
          (newptr, s3)

/-! ### mm_check (mm.c lines 502-598)

The fifth section of mm_check (heap-bounds, lines 578-584) only prints
and cannot change the return value (it contains no `return 0`), and the
final per-bucket counting (lines 586-595) likewise only prints; neither
is modelled.  The `found` flag of the third section is initialised once
before the heap walk and never reset, exactly as in the C code (line
505), so it is threaded through the walk. -/

/-- First check (mm.c lines 510-519): every block reachable from a
bucket head has its allocation bit clear.  Faithfully to line 513, the
bit inspected is bit 0 of the word at the block's payload address (the
forward link), not of its header. -/
def checkFreeLists1 (s : MMState) (p fuel : Nat) : Bool :=
  match fuel with
  | 0 => true
  | f + 1 =>
    if p ≠ 0 then
      if GET_ALLOC s p ≠ 0 then false
      else checkFreeLists1 s (GET s p) f
    else true

def checkAllLists1 (s : MMState) : Bool :=
  (List.range LISTS).all (fun i => checkFreeLists1 s (s.free_lists.getD i 0) (s.mem.length + 1))

/-- Second check (mm.c lines 522-528): no two physically adjacent blocks
are both free. -/
def checkContig (s : MMState) (bp fuel : Nat) : Bool :=
  match fuel with
  | 0 => true
  | f + 1 =>
    if GET_SIZE s (HDRP bp) > 0 then
      if (GET_ALLOC s (HDRP bp) = 0 ∧ GET_ALLOC s (HDRP (PREV_BLKP s bp)) = 0) ∨
         (GET_ALLOC s (HDRP bp) = 0 ∧ GET_ALLOC s (HDRP (NEXT_BLKP s bp)) = 0) then false
      else checkContig s (NEXT_BLKP s bp) f
    else true

/-- The inner search of the third check (mm.c lines 541-547). -/
def searchFound (s : MMState) (bp p : Nat) (found : Bool) (fuel : Nat) : Bool :=
  match fuel with
  | 0 => found
  | f + 1 =>
    if p ≠ 0 ∧ ¬found then
      searchFound s bp (GET s p) (found || (bp == p)) f
    else found

/-- Third check (mm.c lines 531-553): every free block of the heap walk
is reachable from its bucket head; `none` models `return 0`. -/
def checkInList (s : MMState) (bp : Nat) (found : Bool) (fuel : Nat) : Option Bool :=
  match fuel with
  | 0 => some found
  | f + 1 =>
    if GET_SIZE s (HDRP bp) > 0 then
      if GET_ALLOC s (HDRP bp) = 0 then
        let i := mm_find_list_idx (GET_SIZE s (HDRP bp))
        let found2 := searchFound s bp (s.free_lists.getD i 0) found (s.mem.length + 1)
        if ¬found2 then none
        else checkInList s (NEXT_BLKP s bp) found2 f
      else checkInList s (NEXT_BLKP s bp) found f
    else some found

/-- Fourth check (mm.c lines 556-576): list blocks are unallocated and
do not overlap their physical successor. -/
def checkValid4 (s : MMState) (p fuel : Nat) : Bool :=
  match fuel with
  | 0 => true
  | f + 1 =>
    if p ≠ 0 then
      if GET_ALLOC s (HDRP p) ≠ 0 then false
      else
        let next := NEXT_BLKP s p
        if next ≠ 0 ∧ next < p + GET_SIZE s (HDRP p) then false
        else checkValid4 s (GET s p) f
    else true

def checkAllLists4 (s : MMState) : Bool :=
  (List.range LISTS).all (fun i => checkValid4 s (s.free_lists.getD i 0) (s.mem.length + 1))

/-- mm_check (mm.c lines 502-598): true iff all four failing checks pass. -/
def mm_check (s : MMState) : Bool :=
  if ¬checkAllLists1 s then false
  else if ¬checkContig s s.heap_listp (s.mem.length + 1) then false
  else match checkInList s s.heap_listp false (s.mem.length + 1) with
    | none => false
    | some _ =>
      if ¬checkAllLists4 s then false
      else true

/-! ### Doubly linked bucket chains

`chainB s p L` states that following the forward links from the pointer
`p` visits exactly the (null-free) nodes of `L` and then null; `backB s
e L` states that each node's backward link points to its predecessor
(`e` before the first node).  These are the well-formedness facts of
spec invariant 6 that the removal proof needs. -/

def chainB (s : MMState) (p : Nat) (L : List Nat) : Bool :=
  match L with
  | [] => p == 0
  | q :: rest => p == q && q != 0 && chainB s (GET s q) rest

def backB (s : MMState) (e : Nat) (L : List Nat) : Bool :=
  match L with
  | [] => true
  | q :: rest => GET s (q + 8) == e && backB s q rest

/-! ### Concrete runs

All scenarios start from `mm_init` with a host budget of 4096 bytes
(except where exhaustion is wanted) and perform sequences of public
calls that respect the interface preconditions: only pointers returned
by the allocator are freed or reallocated, no pointer is used after
free. -/

def initState : MMState := (mm_init 4096).getD default

/-- Scenario A: `init; a = malloc(112); b = malloc(112); free(b);
realloc(a, 16)`.  Both mallocs extend the heap by 128 bytes and take
the whole extension (`a` at 32, `b` at 160); the free puts `b`'s block
into bucket 2; the realloc shrinks `a` to 32 bytes and inserts the
96-byte remainder (payload address 64) without coalescing, although its
right neighbour (160) is free. -/
def scenA : MMState :=
  let s0 := initState
  let r1 := mm_malloc s0 112
  let r2 := mm_malloc r1.2 112
  let s3 := mm_free r2.2 r2.1
  (mm_realloc s3 r1.1 16).2

/-- The state just before the final realloc of scenario B, and after it.
Scenario B: `init; a = malloc(24); b = malloc(56); c = malloc(24);
free(b); realloc(a, 112)`.  Block a is 48 bytes at 32, b is 80 bytes at
80, c is 48 bytes at 160; after `free(b)` the right neighbour of a is
an 80-byte free block, and `realloc(a, 112)` requests `asize = 128 =
48 + 80` exactly, so the grow-into-right-neighbour path runs with
`remain = 0`. -/
def scenBpre : MMState :=
  let s0 := initState
  let r1 := mm_malloc s0 24
  let r2 := mm_malloc r1.2 56
  let r3 := mm_malloc r2.2 24
  mm_free r3.2 r2.1

def scenB : MMState := (mm_realloc scenBpre 32 112).2

/-- Scenario C: `init; a = malloc(24); b = malloc(56); realloc(a, 40)`.
Block a is 48 bytes at 32 (payload capacity 32 bytes), b is 80 bytes at
80 and allocated, a's left neighbour is the prologue; so the realloc
takes the malloc-copy-free fallback with `size = 40` strictly between
a's payload size 32 and block size 48. -/
def scenCpre : MMState :=
  let s0 := initState
  let r1 := mm_malloc s0 24
  (mm_malloc r1.2 56).2

def scenC : Nat × MMState := mm_realloc scenCpre 32 40

/-- Scenario D: `init; a = malloc(24); b = malloc(56); free(a);
realloc(b, 88)`.  At the realloc, b (80 bytes at 80) has the epilogue
as right neighbour and the free 48-byte block a (at 32) as left
neighbour, with combined size 128 ≥ asize 112. -/
def scenDpre : MMState :=
  let s0 := initState
  let r1 := mm_malloc s0 24
  let r2 := mm_malloc r1.2 56
  mm_free r2.2 32

def scenD : Nat × MMState := mm_realloc scenDpre 80 88

/-- Scenario E: `init` with a host budget of exactly 160 bytes, then
`a = malloc(24)` (which consumes the remaining 128 bytes).  Any
further arena extension fails. -/
def scenE : MMState :=
  let s0 := (mm_init 160).getD default
  (mm_malloc s0 24).2

/-- Scenario F: `init; a = malloc(24); b = malloc(56); c = malloc(24);
free(a)`.  At this point b (80 bytes at 80) has the allocated block c
(48 bytes at 160) as right neighbour and the free 48-byte block a (at
32, alone in bucket 1) as left neighbour, so `realloc(b, 88)` takes the
grow-into-left-neighbour path. -/
def scenFpre : MMState :=
  let s0 := initState
  let r1 := mm_malloc s0 24
  let r2 := mm_malloc r1.2 56
  let r3 := mm_malloc r2.2 24
  mm_free r3.2 32

/-! ### Helper lemmas for the bucket function -/

theorem specBucketGo_eq_findIdxGo (fuel size idx : Nat) :
    specBucketGo fuel size idx = findIdxGo fuel size idx := by
  induction fuel generalizing size idx with
  | zero => rfl
  | succ f ih =>
    simp only [specBucketGo, findIdxGo, LISTS]
    by_cases h : idx < 15 ∧ size > 32
    · rw [if_pos h, if_pos h, ih]
    · rw [if_neg h, if_neg h]

theorem findIdxGo_le_start (fuel size idx : Nat) : idx ≤ findIdxGo fuel size idx := by
  induction fuel generalizing size idx with
  | zero => exact Nat.le_refl idx
  | succ f ih =>
    simp only [findIdxGo]
    by_cases h : idx < LISTS - 1 ∧ size > 32
    · rw [if_pos h]
      exact Nat.le_trans (Nat.le_succ idx) (ih _ _)
    · rw [if_neg h]

theorem findIdxGo_le_15 (fuel size idx : Nat) (h : idx ≤ 15) :
    findIdxGo fuel size idx ≤ 15 := by
  induction fuel generalizing size idx with
  | zero => exact h
  | succ f ih =>
    simp only [findIdxGo, LISTS]
    by_cases hc : idx < 15 ∧ size > 32
    · rw [if_pos hc]
      exact ih _ _ hc.1
    · rw [if_neg hc]
      exact h

theorem findIdxGo_mono (fuel s t idx : Nat) (h : s ≤ t) :
    findIdxGo fuel s idx ≤ findIdxGo fuel t idx := by
  induction fuel generalizing s t idx with
  | zero => exact Nat.le_refl idx
  | succ f ih =>
    simp only [findIdxGo, LISTS]
    by_cases hs : idx < 15 ∧ s > 32
    · have ht : idx < 15 ∧ t > 32 := ⟨hs.1, Nat.lt_of_lt_of_le hs.2 h⟩
      rw [if_pos hs, if_pos ht]
      refine ih _ _ _ ?_
      by_cases hi : idx > 8
      · simp only [if_pos hi, Nat.shiftRight_eq_div_pow]
        exact Nat.div_le_div_right h
      · simp only [if_neg hi, Nat.shiftRight_eq_div_pow]
        exact Nat.div_le_div_right h
    · rw [if_neg hs]
      by_cases ht : idx < 15 ∧ t > 32
      · rw [if_pos ht]
        exact Nat.le_trans (Nat.le_succ idx) (findIdxGo_le_start _ _ _)
      · rw [if_neg ht]

/-! ### Helper lemmas for the structured directory -/

theorem insOrdGo_splice (b curr : FBlock) (rest : List FBlock)
    (hsort : List.Chain' (fun x y : FBlock => x.addr < y.addr) (curr :: rest))
    (hgt : curr.addr < b.addr)
    (hne : ∀ c ∈ curr :: rest, c.addr ≠ b.addr) :
    insOrdGo b curr rest =
      curr :: (rest.takeWhile (fun c => c.addr < b.addr) ++
        b :: rest.dropWhile (fun c => c.addr < b.addr)) := by
  induction rest generalizing curr with
  | nil =>
    simp [insOrdGo, hgt]
  | cons n rest2 ih =>
    simp only [insOrdGo]
    by_cases h1 : b.addr > n.addr
    · rw [if_pos h1]
      have := ih n hsort.tail h1 (fun c hc => hne c (List.mem_cons_of_mem _ hc))
      rw [this]
      simp [List.takeWhile, List.dropWhile, h1]
    · rw [if_neg h1]
      have hlt : b.addr < n.addr := by
        rcases Nat.lt_trichotomy b.addr n.addr with h | h | h
        · exact h
        · exact absurd h.symm (hne n (by simp))
        · exact absurd h h1
      rw [if_pos ⟨hgt, hlt⟩]
      simp [List.takeWhile, List.dropWhile, Nat.not_lt.mpr (Nat.le_of_lt hlt)]

theorem insertOrdered_splice (b : FBlock) (l : List FBlock)
    (hsort : List.Chain' (fun x y : FBlock => x.addr < y.addr) l)
    (hne : ∀ c ∈ l, c.addr ≠ b.addr) :
    insertOrdered b l =
      l.takeWhile (fun c => c.addr < b.addr) ++ b :: l.dropWhile (fun c => c.addr < b.addr) := by
  match l with
  | [] => rfl
  | [c] =>
    simp only [insertOrdered]
    rcases Nat.lt_trichotomy b.addr c.addr with h | h | h
    · rw [if_pos h]
      simp [List.takeWhile, List.dropWhile, Nat.not_lt.mpr (Nat.le_of_lt h)]
    · exact absurd h.symm (hne c (by simp))
    · rw [if_neg (Nat.not_lt.mpr (Nat.le_of_lt h)), if_pos h]
      simp [List.takeWhile, List.dropWhile, h]
  | c :: n :: rest2 =>
    simp only [insertOrdered]
    by_cases h1 : b.addr > n.addr
    · rw [if_pos h1]
      have hcn : c.addr < n.addr := hsort.rel_head
      have := insOrdGo_splice b n rest2 hsort.tail h1
        (fun x hx => hne x (List.mem_cons_of_mem _ hx))
      rw [this]
      have hcb : c.addr < b.addr := Nat.lt_trans hcn h1
      simp [List.takeWhile, List.dropWhile, h1, hcb]
    · rw [if_neg h1]
      have hbn : b.addr < n.addr := by
        rcases Nat.lt_trichotomy b.addr n.addr with h | h | h
        · exact h
        · exact absurd h.symm (hne n (by simp))
        · exact absurd h h1
      by_cases h2 : b.addr < c.addr
      · rw [if_pos h2]
        simp [List.takeWhile, List.dropWhile, Nat.not_lt.mpr (Nat.le_of_lt h2)]
      · rw [if_neg h2]
        have hcb : c.addr < b.addr := by
          rcases Nat.lt_trichotomy c.addr b.addr with h | h | h
          · exact h
          · exact absurd h (hne c (by simp))
          · exact absurd h h2
        rw [if_pos ⟨hcb, hbn⟩]
        simp [List.takeWhile, List.dropWhile, hcb, Nat.not_lt.mpr (Nat.le_of_lt hbn)]

theorem ffBucket_eq (asize : Nat) (l : List FBlock) :
    ffBucket asize l =
      match l.find? (fun b => asize ≤ b.size) with
      | some b => some (b, l.eraseP (fun b => asize ≤ b.size))
      | none => none := by
  induction l with
  | nil => rfl
  | cons b rest ih =>
    simp only [ffBucket, List.find?, List.eraseP]
    by_cases h : asize ≤ b.size
    · simp [h]
    · simp only [h, decide_False, if_neg h, ih]
      cases hf : rest.find? (fun b => asize ≤ b.size) <;> simp [hf]

theorem bucketsFrom_cons (dir : FDir) (idx : Nat) (h : idx < LISTS) :
    bucketsFrom dir idx = dir.getD idx [] ++ bucketsFrom dir (idx + 1) := by
  have : LISTS - idx = (LISTS - (idx + 1)) + 1 := by omega
  rw [bucketsFrom, this, List.range'_succ]
  simp [bucketsFrom, List.flatMap]

theorem ffFrom_spec (asize : Nat) (dir : FDir) (fuel idx : Nat)
    (h : LISTS ≤ fuel + idx) :
    ((ffFrom asize dir fuel idx).1 = (bucketsFrom dir idx).find? (fun b => asize ≤ b.size)) ∧
    ((ffFrom asize dir fuel idx).1 = none → (ffFrom asize dir fuel idx).2 = dir) ∧
    (∀ b, (ffFrom asize dir fuel idx).1 = some b →
      ∃ j, idx ≤ j ∧ j < LISTS ∧
        (∀ j2, idx ≤ j2 → j2 < j → (dir.getD j2 []).find? (fun b => asize ≤ b.size) = none) ∧
        (dir.getD j []).find? (fun b => asize ≤ b.size) = some b ∧
        (ffFrom asize dir fuel idx).2 =
          dir.set j ((dir.getD j []).eraseP (fun b => asize ≤ b.size))) := by
  induction fuel generalizing idx with
  | zero =>
    have hb : bucketsFrom dir idx = [] := by
      rw [bucketsFrom]
      have : LISTS - idx = 0 := by omega
      rw [this]
      rfl
    refine ⟨by rw [hb]; rfl, fun _ => rfl, fun b hsome => ?_⟩
    simp [ffFrom] at hsome
  | succ f ih =>
    by_cases hidx : idx < LISTS
    · rcases hf : ffBucket asize (dir.getD idx []) with _ | ⟨b, l2⟩
      · have hfind : (dir.getD idx []).find? (fun b => asize ≤ b.size) = none := by
          have := ffBucket_eq asize (dir.getD idx [])
          rw [hf] at this
          cases hx : (dir.getD idx []).find? (fun b => asize ≤ b.size) with
          | none => rfl
          | some c => rw [hx] at this; exact absurd this.symm (by simp)
        have hstep : ffFrom asize dir (f + 1) idx = ffFrom asize dir f (idx + 1) := by
          simp only [ffFrom, if_pos hidx, ← List.getD_eq_getElem?_getD, hf]
        rw [hstep, bucketsFrom_cons dir idx hidx, List.find?_append, hfind]
        have hrec := ih (idx + 1) (by omega)
        refine ⟨hrec.1, hrec.2.1, ?_⟩
        intro b hsome
        obtain ⟨j, hj1, hj2, hj3, hj4, hj5⟩ := hrec.2.2 b hsome
        refine ⟨j, by omega, hj2, ?_, hj4, hj5⟩
        intro j2 hle hlt
        rcases Nat.eq_or_lt_of_le hle with rfl | hlt2
        · exact hfind
        · exact hj3 j2 hlt2 hlt
      · have := ffBucket_eq asize (dir.getD idx [])
        rw [hf] at this
        have hfind : (dir.getD idx []).find? (fun b => asize ≤ b.size) = some b ∧
            l2 = (dir.getD idx []).eraseP (fun b => asize ≤ b.size) := by
          cases hx : (dir.getD idx []).find? (fun b => asize ≤ b.size) with
          | none => rw [hx] at this; exact absurd this (by simp)
          | some c =>
            rw [hx] at this
            simp only [Option.some.injEq, Prod.mk.injEq] at this
            exact ⟨by rw [this.1], this.2⟩
        have hstep : ffFrom asize dir (f + 1) idx = (some b, dir.set idx l2) := by
          simp only [ffFrom, if_pos hidx, ← List.getD_eq_getElem?_getD, hf]
        rw [hstep, bucketsFrom_cons dir idx hidx, List.find?_append, hfind.1]
        refine ⟨rfl, ?_, ?_⟩
        · intro hn; exact absurd hn (by simp)
        · intro b2 hsome
          simp only [Option.some.injEq] at hsome
          subst hsome
          exact ⟨idx, Nat.le_refl idx, hidx, by omega, hfind.1, by rw [hfind.2]⟩
    · have hb : bucketsFrom dir idx = [] := by
        rw [bucketsFrom]
        have : LISTS - idx = 0 := by omega
        rw [this]
        rfl
      have hstep : ffFrom asize dir (f + 1) idx = (none, dir) := by
        simp [ffFrom, if_neg hidx]
      rw [hstep, hb]
      exact ⟨rfl, fun _ => rfl, fun b hsome => absurd hsome (by simp)⟩

/-! ### Claim theorems -/

/-- C6: for every size, the bucket function of the implementation
(`mm_find_list_idx`, mm.c lines 383-397, with `LISTS = 16`, so the loop
guard is `idx < 15` and the shift test is `idx > 8`) returns exactly the
index computed by the spec's pseudocode. -/
theorem claim_C6_bucket_function_matches_spec (size : Nat) :
    bucket_idx_spec size = mm_find_list_idx size :=
  specBucketGo_eq_findIdxGo 15 size 0

/-- C10: `mm_find_list_idx` is total (it is a Lean function), its result
always lies in [0, 15], and it is monotone non-decreasing, which is the
fact find_fit's search relies on: a block of size at least `asize` can
only live in a bucket of index at least `mm_find_list_idx asize`. -/
theorem claim_C10_bucket_function_monotone (s t : Nat) (h : s ≤ t) :
    mm_find_list_idx s ≤ 15 ∧ mm_find_list_idx s ≤ mm_find_list_idx t :=
  ⟨findIdxGo_le_15 (LISTS - 1) s 0 (by omega), findIdxGo_mono (LISTS - 1) s t 0 h⟩

/-- C10 witness: the theorem applied at sizes 40 and 8192. -/
theorem claim_C10_witness :
    mm_find_list_idx 40 ≤ 15 ∧ mm_find_list_idx 40 ≤ mm_find_list_idx 8192 :=
  claim_C10_bucket_function_monotone 40 8192 (by decide)

/-- C4 counterexample: size 8192 maps to bucket index 8, and on bucket
index 8 the code inserts in address order (the inserted block with the
larger address 2000 ends up after the resident block at 1000), not at
the head as the claim's threshold `index ≤ 8 ⇒ LIFO` states. -/
theorem claim_C4_counterexample :
    mm_find_list_idx 8192 = 8 ∧
    insertCore ⟨2000, 8192⟩ 8 [⟨1000, 8192⟩] = [⟨1000, 8192⟩, ⟨2000, 8192⟩] ∧
    insertCore ⟨2000, 8192⟩ 8 [⟨1000, 8192⟩] ≠ ⟨2000, 8192⟩ :: [⟨1000, 8192⟩] := by
  decide

/-- C4 (amended): the threshold separating the two insertion policies is
`idx > (LISTS-1)/2 = 7`, not `idx > 8`: for a bucket index greater
than 7 (buckets 8..15) the block is inserted in ascending address order,
spliced before the first block with a higher address; for an index of at
most 7 it is inserted at the head.  The bucket is assumed to be in
strictly ascending address order with addresses distinct from the new
block's, which is what the insertion policy itself maintains. -/
theorem claim_C4_insertion_policy (b : FBlock) (idx : Nat) (l : List FBlock)
    (hsort : List.Chain' (fun x y : FBlock => x.addr < y.addr) l)
    (hne : ∀ c ∈ l, c.addr ≠ b.addr) :
    (idx > 7 → insertCore b idx l =
      l.takeWhile (fun c => c.addr < b.addr) ++ b :: l.dropWhile (fun c => c.addr < b.addr)) ∧
    (idx ≤ 7 → insertCore b idx l = b :: l) := by
  constructor
  · intro hgt
    rw [insertCore, if_pos (by simpa [LISTS] using hgt)]
    exact insertOrdered_splice b l hsort hne
  · intro hle
    rw [insertCore, if_neg (by simp [LISTS]; omega)]

/-- C4 witness: the amended theorem applied to the singleton bucket
[1000] at index 8 (giving the address-ordered result) and at index 2
(giving the LIFO result). -/
theorem claim_C4_witness :
    insertCore ⟨2000, 8192⟩ 8 [⟨1000, 8192⟩] = [⟨1000, 8192⟩, ⟨2000, 8192⟩] ∧
    insertCore ⟨2000, 8192⟩ 2 [⟨1000, 8192⟩] = [⟨2000, 8192⟩, ⟨1000, 8192⟩] := by
  constructor
  · have h := (claim_C4_insertion_policy ⟨2000, 8192⟩ 8 [⟨1000, 8192⟩]
      (by simp) (by decide)).1 (by decide)
    exact h.trans (by decide)
  · have h := (claim_C4_insertion_policy ⟨2000, 8192⟩ 2 [⟨1000, 8192⟩]
      (by simp) (by decide)).2 (by decide)
    exact h

/-- C7: find_fit starts at the bucket of `asize`, walks the buckets in
index order and each bucket in link order, returns the first block whose
size is at least `asize` (that is, the first fit in the concatenation of
buckets `mm_find_list_idx asize .. 15`), removes exactly that block from
its bucket, and returns none (with the directory unchanged) when no
bucket up to 15 contains a fit. -/
theorem claim_C7_find_fit (asize : Nat) (dir : FDir) :
    ((find_fit asize dir).1 =
      (bucketsFrom dir (mm_find_list_idx asize)).find? (fun b => asize ≤ b.size)) ∧
    ((find_fit asize dir).1 = none → (find_fit asize dir).2 = dir) ∧
    (∀ b, (find_fit asize dir).1 = some b →
      ∃ j, mm_find_list_idx asize ≤ j ∧ j < LISTS ∧
        (∀ j2, mm_find_list_idx asize ≤ j2 → j2 < j →
          (dir.getD j2 []).find? (fun b => asize ≤ b.size) = none) ∧
        (dir.getD j []).find? (fun b => asize ≤ b.size) = some b ∧
        (find_fit asize dir).2 =
          dir.set j ((dir.getD j []).eraseP (fun b => asize ≤ b.size))) :=
  ffFrom_spec asize dir LISTS (mm_find_list_idx asize) (by omega)

/-- C7 witness: the theorem applied to a concrete directory in which the
first fit for 64 sits in bucket 2 behind a too-small block. -/
theorem claim_C7_witness :
    (find_fit 64 [[], [], [⟨500, 48⟩, ⟨700, 96⟩], [], [], [], [], [],
        [], [], [], [], [], [], [], []]).1 = some ⟨700, 96⟩ :=
  ((claim_C7_find_fit 64 [[], [], [⟨500, 48⟩, ⟨700, 96⟩], [], [], [], [], [],
      [], [], [], [], [], [], [], []]).1).trans (by decide)

/-- C8: coalesce merges the freed block with each free immediate
neighbour, removing that neighbour from the bucket of its own
(pre-merge) size first — the right neighbour before the left, as in the
code; the merged size is the sum of the participating sizes; the result
address is the left neighbour's whenever the left neighbour was free and
the block's own address otherwise; and the merged block is inserted into
the bucket recomputed from the merged size. -/
theorem claim_C8_coalesce (bp size prevSize nextSize : Nat)
    (prevAlloc nextAlloc : Bool) (dir : FDir) :
    coalesce bp size prevSize prevAlloc nextSize nextAlloc dir =
      (if prevAlloc then bp else bp - prevSize,
       size + (if prevAlloc then 0 else prevSize) + (if nextAlloc then 0 else nextSize),
       mm_insert_fblock
         ⟨if prevAlloc then bp else bp - prevSize,
          size + (if prevAlloc then 0 else prevSize) + (if nextAlloc then 0 else nextSize)⟩
         (some (mm_find_list_idx
           (size + (if prevAlloc then 0 else prevSize) + (if nextAlloc then 0 else nextSize))))
         (let d1 := if nextAlloc then dir else
            mm_remove_fblock ⟨bp + size, nextSize⟩ (some (mm_find_list_idx nextSize)) dir
          if prevAlloc then d1 else
            mm_remove_fblock ⟨bp - prevSize, prevSize⟩ (some (mm_find_list_idx prevSize)) d1)) := by
  cases prevAlloc <;> cases nextAlloc <;>
    simp [coalesce, mm_insert_fblock, mm_remove_fblock]

/-- C1: the no-adjacent-free-blocks invariant fails on a reachable
state.  In scenario A (`init; a = malloc(112); b = malloc(112);
free(b); realloc(a, 16)`) the realloc shrink path inserts the split
remainder (96 bytes, payload address 64) without coalescing, leaving it
physically adjacent to the free 128-byte block at 160: both blocks have
allocation bit 0, the remainder's next block is 160, both sit in bucket
2 of the directory, and the code's own contiguity check fails. -/
theorem claim_C1_adjacent_free_blocks :
    GET_ALLOC scenA (HDRP 64) = 0 ∧
    NEXT_BLKP scenA 64 = 160 ∧
    GET_ALLOC scenA (HDRP 160) = 0 ∧
    GET_SIZE scenA (HDRP 64) = 96 ∧
    GET_SIZE scenA (HDRP 160) = 128 ∧
    scenA.free_lists.getD 2 0 = 64 ∧
    GET scenA 64 = 160 ∧
    checkContig scenA scenA.heap_listp (scenA.mem.length + 1) = false := by
  decide

/-- C3: the audit fails after a precondition-respecting sequence of
public calls: `mm_check` returns 0 on scenario A, whose realloc shrink
left two adjacent free blocks, while the same audit passed immediately
after the preceding free. -/
theorem claim_C3_audit_fails :
    mm_check scenA = false ∧
    mm_check initState = true ∧
    mm_check (mm_malloc initState 112).2 = true := by
  decide

/-- C2: in the grow-into-right-neighbour path of mm_realloc the
remainder is formed and inserted unconditionally.  In scenario B the
combined size equals `asize` exactly (remain = 0), yet the code writes a
(0, 0) boundary tag pair — the header lands on the header of the next
allocated block at 160, destroying it (it held PACK(48,1) = 49 before),
the footer lands on the reallocated block's own fresh footer at 144 —
and inserts the zero-size block at 160 into bucket 0. -/
theorem claim_C2_zero_remainder_inserted :
    GET_ALLOC scenBpre (HDRP (NEXT_BLKP scenBpre 32)) = 0 ∧
    GET_SIZE scenBpre (HDRP 32) + GET_SIZE scenBpre (HDRP (NEXT_BLKP scenBpre 32)) = 128 ∧
    adjSize 112 = 128 ∧
    GET scenBpre 152 = 49 ∧
    (mm_realloc scenBpre 32 112).1 = 32 ∧
    scenB.free_lists.getD 0 0 = 160 ∧
    GET_SIZE scenB (HDRP 160) = 0 ∧
    GET scenB 152 = 0 ∧
    GET scenB 144 = 0 ∧
    GET scenB (HDRP 32) = 129 := by
  decide

/-! ### Lemmas about failing allocation paths -/

theorem mem_sbrk_fail (s : MMState) (n : Nat) (h : (mem_sbrk s n).1 = none) :
    (mem_sbrk s n).2 = s := by
  by_cases hc : n ≤ s.avail
  · simp [mem_sbrk, hc] at h
  · simp [mem_sbrk, hc]

theorem mem_sbrk_some_brk (s : MMState) (n bp : Nat) (h : (mem_sbrk s n).1 = some bp) :
    bp = s.brk := by
  by_cases hc : n ≤ s.avail
  · simp [mem_sbrk, hc] at h
    exact h.symm
  · simp [mem_sbrk, hc] at h

theorem extend_heap_fail (s : MMState) (w : Nat) (h : (extend_heap s w).1 = none) :
    (extend_heap s w).2 = s := by
  by_cases hc : (if w % 2 = 1 then (w + 1) * WSIZE else w * WSIZE) ≤ s.avail
  · exfalso
    simp [extend_heap, mem_sbrk, hc] at h
  · simp [extend_heap, mem_sbrk, hc]

theorem extend_heap_some_brk (s : MMState) (w bp : Nat)
    (h : (extend_heap s w).1 = some bp) : bp = s.brk := by
  by_cases hc : (if w % 2 = 1 then (w + 1) * WSIZE else w * WSIZE) ≤ s.avail
  · simp [extend_heap, mem_sbrk, hc] at h
    exact h.symm
  · exfalso
    simp [extend_heap, mem_sbrk, hc] at h

theorem ffWalk_some_ne_zero (s : MMState) (asize bp fuel r : Nat)
    (h : ffWalk s asize bp fuel = some r) : r ≠ 0 := by
  induction fuel generalizing bp with
  | zero => simp [ffWalk] at h
  | succ f ih =>
    rw [ffWalk] at h
    by_cases hbp : bp ≠ 0
    · rw [if_pos hbp] at h
      by_cases hsz : asize ≤ GET_SIZE s (HDRP bp)
      · rw [if_pos hsz] at h
        simp only [Option.some.injEq] at h
        subst h
        exact hbp
      · rw [if_neg hsz] at h
        exact ih _ h
    · rw [if_neg hbp] at h
      simp at h

theorem ffOuter_cases (s : MMState) (asize fuel idx : Nat) :
    ((ffOuter s asize fuel idx).1 = none → (ffOuter s asize fuel idx).2 = s) ∧
    (∀ r, (ffOuter s asize fuel idx).1 = some r → r ≠ 0) := by
  induction fuel generalizing idx with
  | zero => exact ⟨fun _ => rfl, fun r h => by simp [ffOuter] at h⟩
  | succ f ih =>
    by_cases hidx : idx < LISTS
    · rcases hw : ffWalk s asize (s.free_lists.getD idx 0) (s.mem.length + 1) with _ | bp
      · have hstep : ffOuter s asize (f + 1) idx = ffOuter s asize f (idx + 1) := by
          simp only [ffOuter, if_pos hidx, ← List.getD_eq_getElem?_getD, hw]
        rw [hstep]
        exact ih (idx + 1)
      · have hstep : ffOuter s asize (f + 1) idx =
            (some bp, mm_remove_fblock_f s bp (some idx)) := by
          simp only [ffOuter, if_pos hidx, ← List.getD_eq_getElem?_getD, hw]
        rw [hstep]
        refine ⟨fun hn => absurd hn (by simp), fun r hr => ?_⟩
        simp only [Option.some.injEq] at hr
        subst hr
        exact ffWalk_some_ne_zero s asize _ _ _ hw
    · have hstep : ffOuter s asize (f + 1) idx = (none, s) := by
        simp [ffOuter, if_neg hidx]
      rw [hstep]
      exact ⟨fun _ => rfl, fun r hr => absurd hr (by simp)⟩

/-- A failing mm_malloc leaves the state untouched: when it returns
null, no fit was found (so find_fit changed nothing) and the heap
extension failed (so mem_sbrk changed nothing). -/
theorem mm_malloc_fail (s : MMState) (size : Nat) (hbrk : s.brk ≠ 0)
    (h : (mm_malloc s size).1 = 0) : (mm_malloc s size).2 = s := by
  by_cases hz : size = 0
  · simp [mm_malloc, hz]
  · simp only [mm_malloc, if_neg hz] at h ⊢
    rcases hff : find_fit_f s (adjSize size) with ⟨r, s1⟩
    have hff1 : (ffOuter s (adjSize size) LISTS (mm_find_list_idx (adjSize size))).1 = r := by
      rw [show ffOuter s (adjSize size) LISTS (mm_find_list_idx (adjSize size)) =
        find_fit_f s (adjSize size) from rfl, hff]
    have hff2 : (ffOuter s (adjSize size) LISTS (mm_find_list_idx (adjSize size))).2 = s1 := by
      rw [show ffOuter s (adjSize size) LISTS (mm_find_list_idx (adjSize size)) =
        find_fit_f s (adjSize size) from rfl, hff]
    rw [hff] at h
    cases r with
    | some bp =>
      exact absurd h
        ((ffOuter_cases s (adjSize size) LISTS (mm_find_list_idx (adjSize size))).2 bp hff1)
    | none =>
      have hs1 : s1 = s := by
        rw [← hff2]
        exact (ffOuter_cases s (adjSize size) LISTS (mm_find_list_idx (adjSize size))).1 hff1
      rw [hs1] at h ⊢
      have h2 : (match extend_heap s (max (adjSize size) CHUNKSIZE / WSIZE) with
          | (none, s2) => ((0 : Nat), s2)
          | (some bp, s1) => (bp, place s1 bp (adjSize size))).1 = 0 := h
      show (match extend_heap s (max (adjSize size) CHUNKSIZE / WSIZE) with
          | (none, s2) => ((0 : Nat), s2)
          | (some bp, s1) => (bp, place s1 bp (adjSize size))).2 = s
      rcases he : extend_heap s (max (adjSize size) CHUNKSIZE / WSIZE) with ⟨re, s2⟩
      rw [he] at h2
      cases re with
      | none =>
        have hfl := extend_heap_fail s (max (adjSize size) CHUNKSIZE / WSIZE) (by rw [he])
        rw [he] at hfl
        exact hfl
      | some bp =>
        exfalso
        have hb0 : bp = 0 := h2
        have hbrk2 := extend_heap_some_brk s (max (adjSize size) CHUNKSIZE / WSIZE) bp (by rw [he])
        rw [hb0] at hbrk2
        exact hbrk hbrk2.symm

/-- C5 counterexample: in scenario C the old block at 32 has block size
48 and payload capacity 48 - 16 = 32 bytes, and `realloc(a, 40)` takes
the copy fallback; the code's copy width is `copySizeOf 40 48 = 40`
bytes, not `min(40, 32) = 32` as the claim states, and the copy is
observable: the old block's footer word PACK(48,1) = 49 (at 64) is
copied to the new payload's word at offset 32 (address 192), which a
32-byte copy would have left at its fresh value 0. -/
theorem claim_C5_counterexample :
    GET_SIZE scenCpre (HDRP 32) = 48 ∧
    copySizeOf 40 (GET_SIZE scenCpre (HDRP 32)) = 40 ∧
    min 40 (GET_SIZE scenCpre (HDRP 32) - 16) = 32 ∧
    GET scenCpre 192 = 0 ∧
    GET scenCpre 64 = 49 ∧
    scenC.1 = 160 ∧
    GET scenC.2 192 = 49 := by
  decide

/-- C5 (amended): the realloc copy fallback copies
`min(n, current_block_size)` bytes — the full block size including the
2W of header and footer overhead, so up to 2W bytes past the old
payload — and on internal malloc failure it returns null with the
whole heap state (in particular p's block and its contents) unchanged
and without freeing p. -/
theorem claim_C5_copy_fallback :
    (∀ n bsize : Nat, copySizeOf n bsize = min n bsize) ∧
    (∀ (s : MMState) (ptr size : Nat),
      s.brk ≠ 0 →
      ¬size = 0 → ¬ptr = 0 →
      ¬adjSize size < GET_SIZE s (HDRP ptr) →
      ¬(GET_ALLOC s (HDRP (NEXT_BLKP s ptr)) = 0 ∧
        GET_SIZE s (HDRP ptr) + GET_SIZE s (HDRP (NEXT_BLKP s ptr)) ≥ adjSize size) →
      ¬GET_SIZE s (HDRP (NEXT_BLKP s ptr)) = 0 →
      ¬(GET_ALLOC s (HDRP (PREV_BLKP s ptr)) = 0 ∧
        GET_SIZE s (HDRP ptr) + GET_SIZE s (HDRP (PREV_BLKP s ptr)) ≥ adjSize size) →
      (mm_malloc s size).1 = 0 →
      mm_realloc s ptr size = (0, s)) := by
  constructor
  · intro n bsize
    rw [copySizeOf, Nat.min_def]
    by_cases h : n < bsize
    · rw [if_pos h, if_pos (Nat.le_of_lt h)]
    · rw [if_neg h]
      by_cases h2 : n ≤ bsize
      · have : n = bsize := Nat.le_antisymm h2 (Nat.not_lt.mp h)
        rw [if_pos h2, this]
      · rw [if_neg h2]
  · intro s ptr size hbrk h0 hp h1 h2 h3 h4 h5
    have hm : mm_malloc s size = (0, s) :=
      Prod.ext h5 (mm_malloc_fail s size hbrk h5)
    simp only [mm_realloc, if_neg h0, if_neg hp, if_neg h1, if_neg h2, if_neg h3, if_neg h4, hm]

/-- C5 witness: in scenario E (host budget exhausted) `realloc(a, 200)`
reaches the fallback, the internal malloc fails, and the realloc
returns null with the state untouched. -/
theorem claim_C5_witness : mm_realloc scenE 32 200 = (0, scenE) :=
  claim_C5_copy_fallback.2 scenE 32 200 (by decide) (by decide) (by decide)
    (by decide) (by decide) (by decide) (by decide) (by decide)

/-- C9 counterexample: in scenario D the claim's precondition holds for
`realloc(b, 88)` with b at 80 — the right neighbour is allocated
(the epilogue, allocation bit 1), the left neighbour at 32 is free, and
the combined size 128 is at least asize 112 — yet the code takes the
extend-heap branch because the right neighbour's size is 0: it returns
b's own pointer 80, not the left neighbour's payload pointer 32, and
the left neighbour is not removed from its bucket (bucket 1 still
heads at 32, and 32 is still a free block). -/
theorem claim_C9_counterexample :
    GET_ALLOC scenDpre (HDRP (NEXT_BLKP scenDpre 80)) = 1 ∧
    GET_SIZE scenDpre (HDRP (NEXT_BLKP scenDpre 80)) = 0 ∧
    GET_ALLOC scenDpre (HDRP (PREV_BLKP scenDpre 80)) = 0 ∧
    PREV_BLKP scenDpre 80 = 32 ∧
    adjSize 88 = 112 ∧
    GET_SIZE scenDpre (HDRP 80) + GET_SIZE scenDpre (HDRP 32) = 128 ∧
    scenD.1 = 80 ∧
    (80 : Nat) ≠ 32 ∧
    scenD.2.free_lists.getD 1 0 = 32 ∧
    GET_ALLOC scenD.2 (HDRP 32) = 0 := by
  decide

/-! ### Word-level lemmas -/

theorem GET_PUT_same (s : MMState) (a v p : Nat) (hw : p / 8 = a / 8)
    (hb : a / 8 < s.mem.length) : GET (PUT s a v) p = v := by
  simp [GET, PUT, hw, List.getD_eq_getElem?_getD, List.getElem?_set_self, hb]

theorem GET_PUT_ne (s : MMState) (a v p : Nat) (hw : p / 8 ≠ a / 8) :
    GET (PUT s a v) p = GET s p := by
  simp [GET, PUT, List.getD_eq_getElem?_getD, List.getElem?_set_ne (fun h => hw h.symm)]

theorem PUT_mem_length (s : MMState) (a v : Nat) :
    (PUT s a v).mem.length = s.mem.length := by
  simp [PUT]

theorem PUT_free_lists (s : MMState) (a v : Nat) :
    (PUT s a v).free_lists = s.free_lists := rfl

theorem PUT_brk (s : MMState) (a v : Nat) : (PUT s a v).brk = s.brk := rfl

/-- For an even word, packing the allocation bit just adds one. -/
theorem lor_one_of_even (m : Nat) (h : m % 2 = 0) : m ||| 1 = m + 1 := by
  apply Nat.eq_of_testBit_eq
  intro i
  cases i with
  | zero =>
    rw [Nat.testBit_lor]
    simp [Nat.testBit_zero, Nat.add_mod, h]
  | succ k =>
    rw [Nat.testBit_lor]
    have h1 : Nat.testBit 1 (k + 1) = false := by
      simp [Nat.testBit_succ]
    rw [h1, Bool.or_false]
    rw [Nat.testBit_succ, Nat.testBit_succ]
    have : (m + 1) / 2 = m / 2 := by omega
    rw [this]

theorem PACK_one (m : Nat) (h : m % 16 = 0) : PACK m 1 = m + 1 := by
  rw [PACK]
  exact lor_one_of_even m (by omega)

theorem PACK_zero (m : Nat) : PACK m 0 = m := Nat.or_zero m

theorem PACK_one_size (m : Nat) (h : m % 16 = 0) : (PACK m 1) / 16 * 16 = m := by
  rw [PACK_one m h]
  omega

theorem PACK_one_alloc (m : Nat) (h : m % 16 = 0) : (PACK m 1) % 2 = 1 := by
  rw [PACK_one m h]
  omega

theorem GET_SIZE_mod_16 (s : MMState) (p : Nat) : GET_SIZE s p % 16 = 0 := by
  rw [GET_SIZE]
  omega

theorem chainB_ext (s s2 : MMState) (L : List Nat)
    (h : ∀ q ∈ L, GET s2 q = GET s q) :
    ∀ p, chainB s2 p L = chainB s p L := by
  induction L with
  | nil => intro p; rfl
  | cons q rest ih =>
    intro p
    simp only [chainB]
    rw [h q (by simp), ih (fun x hx => h x (List.mem_cons_of_mem _ hx))]

theorem chainB_nodes_ne_zero (s : MMState) (L : List Nat) :
    ∀ p, chainB s p L = true → ∀ q ∈ L, q ≠ 0 := by
  induction L with
  | nil => intro p _ q hq; simp at hq
  | cons a rest ih =>
    intro p hc q hq
    simp only [chainB, Bool.and_eq_true, beq_iff_eq, bne_iff_ne] at hc
    rcases List.mem_cons.mp hq with rfl | hq2
    · exact hc.1.2
    · exact ih (GET s a) hc.2 q hq2

theorem chain_mid (s : MMState) (bp : Nat) (L2 : List Nat) :
    ∀ (L1 : List Nat) (p : Nat), chainB s p (L1 ++ bp :: L2) = true →
      GET s bp = L2.headD 0 := by
  intro L1
  induction L1 with
  | nil =>
    intro p hc
    simp only [List.nil_append, chainB, Bool.and_eq_true, beq_iff_eq, bne_iff_ne] at hc
    cases L2 with
    | nil => simpa [chainB] using hc.2
    | cons c rest =>
      simp only [chainB, Bool.and_eq_true, beq_iff_eq, bne_iff_ne] at hc
      exact hc.2.1.1
  | cons a L1t ih =>
    intro p hc
    simp only [List.cons_append, chainB, Bool.and_eq_true, beq_iff_eq, bne_iff_ne] at hc
    exact ih (GET s a) hc.2

theorem backB_pre (s : MMState) (bp : Nat) (L2 : List Nat) :
    ∀ (L1 : List Nat) (e : Nat), backB s e (L1 ++ bp :: L2) = true →
      GET s (bp + 8) = L1.getLastD e := by
  intro L1
  induction L1 with
  | nil =>
    intro e hb
    simp only [List.nil_append, backB, Bool.and_eq_true, beq_iff_eq] at hb
    exact hb.1
  | cons a L1t ih =>
    intro e hb
    simp only [List.cons_append, backB, Bool.and_eq_true, beq_iff_eq] at hb
    rw [List.getLastD_cons]
    exact ih a hb.2

theorem getLastD_cons_mem (l : List Nat) : ∀ (b x : Nat), (b :: l).getLastD x ∈ b :: l := by
  induction l with
  | nil => intro b x; simp [List.getLastD_cons]
  | cons c rest ih =>
    intro b x
    rw [List.getLastD_cons]
    exact List.mem_cons_of_mem b (ih c b)

theorem getLastD_cons_default (l : List Nat) (b x y : Nat) :
    (b :: l).getLastD x = (b :: l).getLastD y := by
  rw [List.getLastD_cons, List.getLastD_cons]

/-- Splicing the node `bp` out of a forward chain: if every link of the
remaining nodes is unchanged except the last node of `L1`, whose link
now points at the head of `L2`, then the forward chain visits exactly
`L1 ++ L2`. -/
theorem chain_splice (s s2 : MMState) (bp : Nat) (L2 : List Nat) :
    ∀ (L1 : List Nat) (h : Nat),
      L1 ≠ [] →
      chainB s h (L1 ++ bp :: L2) = true →
      (L1 ++ bp :: L2).Nodup →
      (∀ q ∈ L1 ++ L2, q ≠ L1.getLastD 0 → GET s2 q = GET s q) →
      GET s2 (L1.getLastD 0) = L2.headD 0 →
      chainB s2 h (L1 ++ L2) = true := by
  intro L1
  induction L1 with
  | nil => intro h hne; exact absurd rfl hne
  | cons a L1t ih =>
    intro h _ hc hnd hkeep hlast
    cases L1t with
    | nil =>
      have hlasta : List.getLastD [a] 0 = a := by simp [List.getLastD_cons]
      rw [hlasta] at hkeep hlast
      cases L2 with
      | nil =>
        simp only [List.cons_append, List.nil_append, chainB, Bool.and_eq_true,
          beq_iff_eq, bne_iff_ne] at hc ⊢
        exact ⟨hc.1, hlast⟩
      | cons c L2t =>
        simp only [List.cons_append, List.nil_append, chainB, Bool.and_eq_true,
          beq_iff_eq, bne_iff_ne] at hc ⊢
        have hget : GET s2 c = GET s c := by
          apply hkeep c (by simp)
          have := (List.nodup_cons.mp hnd).1
          intro heq
          exact this (by rw [← heq]; simp)
        refine ⟨hc.1, ⟨?_, hc.2.2.1.2⟩, ?_⟩
        · exact hlast
        · rw [hget]
          rw [chainB_ext s s2 L2t ?hext (GET s c)]
          · exact hc.2.2.2
          case hext =>
            intro q hq
            apply hkeep q (by simp [hq])
            have := (List.nodup_cons.mp hnd).1
            intro heq
            exact this (by rw [← heq]; simp [hq])
    | cons b L1tt =>
      simp only [List.cons_append, chainB, Bool.and_eq_true, beq_iff_eq, bne_iff_ne] at hc
      have hlastmem : (a :: b :: L1tt).getLastD 0 ∈ b :: L1tt := by
        rw [List.getLastD_cons]
        exact getLastD_cons_mem L1tt b a
      have hane : a ≠ (a :: b :: L1tt).getLastD 0 := by
        intro heq
        have := (List.nodup_cons.mp hnd).1
        exact this (by rw [heq]; exact List.mem_append_left _ hlastmem)
      have hgeta : GET s2 a = GET s a := hkeep a (by simp) hane
      have hdef : (a :: b :: L1tt).getLastD 0 = (b :: L1tt).getLastD 0 := by
        rw [List.getLastD_cons]
        exact getLastD_cons_default L1tt b a 0
      rw [hdef] at hkeep hlast
      have hrec : chainB s b ((b :: L1tt) ++ bp :: L2) = true := by
        simp only [List.cons_append, chainB, Bool.and_eq_true, beq_iff_eq, bne_iff_ne]
        exact ⟨⟨trivial, hc.2.1.2⟩, hc.2.2⟩
      have hres := ih b (by simp) hrec (List.nodup_cons.mp hnd).2
        (fun q hq hqne => hkeep q (List.mem_cons_of_mem a hq) hqne) hlast
      simp only [List.cons_append, chainB, Bool.and_eq_true, beq_iff_eq, bne_iff_ne]
        at hres ⊢
      exact ⟨hc.1, ⟨by rw [hgeta, hc.2.1.1], hc.2.1.2⟩, hres.2⟩

theorem word_add8 (c : Nat) : (c + 8) / 8 = c / 8 + 1 :=
  Nat.add_div_right c (by norm_num)

theorem div8_ne (a b : Nat) (ha : a % 8 = 0) (hb : b % 8 = 0) (h : a ≠ b) :
    a / 8 ≠ b / 8 := by omega

/-- Correctness of mm_remove_fblock on a well-formed doubly linked
bucket: removing `bp` from the bucket `i` whose forward chain visits
`L1 ++ bp :: L2` (with consistent backward links, distinct aligned
nodes whose link cells do not alias, all in bounds) yields a state
whose bucket `i` chain visits exactly `L1 ++ L2`; only the link cells
of the listed nodes are written; the arena footprint, the break, the
budget, the traversal base and the other bucket heads are unchanged. -/
theorem remove_fblock_chain (s : MMState) (i bp : Nat) (L1 L2 : List Nat) (idxO : Option Nat)
    (hiL : i < s.free_lists.length)
    (hL : chainB s (s.free_lists.getD i 0) (L1 ++ bp :: L2) = true)
    (hback : backB s 0 (L1 ++ bp :: L2) = true)
    (hnd : (L1 ++ bp :: L2).Nodup)
    (hal : ∀ q ∈ L1 ++ bp :: L2, q % 8 = 0)
    (hcell : ∀ a ∈ L1 ++ bp :: L2, ∀ b ∈ L1 ++ bp :: L2, a ≠ b → a ≠ b + 8)
    (hbound : ∀ q ∈ L1 ++ bp :: L2, q / 8 + 1 < s.mem.length)
    (hidx : idxO.getD (flFindIdx s bp) = i) :
    chainB (mm_remove_fblock_f s bp idxO)
      ((mm_remove_fblock_f s bp idxO).free_lists.getD i 0) (L1 ++ L2) = true ∧
    (∀ p : Nat, (∀ q ∈ L1 ++ bp :: L2, p / 8 ≠ q / 8 ∧ p / 8 ≠ q / 8 + 1) →
      GET (mm_remove_fblock_f s bp idxO) p = GET s p) ∧
    (mm_remove_fblock_f s bp idxO).mem.length = s.mem.length ∧
    (mm_remove_fblock_f s bp idxO).brk = s.brk ∧
    (mm_remove_fblock_f s bp idxO).avail = s.avail ∧
    (mm_remove_fblock_f s bp idxO).heap_listp = s.heap_listp ∧
    (mm_remove_fblock_f s bp idxO).free_lists.length = s.free_lists.length ∧
    (∀ j, j ≠ i → (mm_remove_fblock_f s bp idxO).free_lists.getD j 0 =
      s.free_lists.getD j 0) := by
  have hpre := backB_pre s bp L2 L1 0 hback
  have hsuc := chain_mid s bp L2 L1 _ hL
  cases L1 with
  | nil =>
    have hpre0 : GET s (bp + 8) = 0 := by simpa using hpre
    cases L2 with
    | nil =>
      have hsuc0 : GET s bp = 0 := by simpa using hsuc
      have hred : mm_remove_fblock_f s bp idxO =
          { s with free_lists := s.free_lists.set i 0 } := by
        simp [mm_remove_fblock_f, NEXT_FBLK, PREV_FBLK, hpre0, hsuc0, hidx]
      rw [hred]
      refine ⟨?_, fun p _ => rfl, rfl, rfl, rfl, rfl, by simp, ?_⟩
      · simp [chainB, List.getD_eq_getElem?_getD, List.getElem?_set_self, hiL]
      · intro j hj
        simp [List.getD_eq_getElem?_getD, List.getElem?_set_ne (fun h => hj h.symm)]
    | cons c L2t =>
      have hsucc : GET s bp = c := by simpa using hsuc
      have hc0 : c ≠ 0 := chainB_nodes_ne_zero s _ _ hL c (by simp)
      have hcmem : c ∈ ([] : List Nat) ++ bp :: c :: L2t := by simp
      have hc8 : c % 8 = 0 := hal c hcmem
      have hred : mm_remove_fblock_f s bp idxO =
          { PUT s (c + 8) 0 with free_lists := (PUT s (c + 8) 0).free_lists.set i c } := by
        simp only [mm_remove_fblock_f, NEXT_FBLK, PREV_FBLK, hpre0, hsucc, hidx]
        rw [if_neg (by simp), if_neg (by simp), if_pos ⟨trivial, hc0⟩]
      rw [hred]
      have hfl : (PUT s (c + 8) 0).free_lists = s.free_lists := rfl
      refine ⟨?_, ?_, by simp [PUT], rfl, rfl, rfl, by simp [hfl], ?_⟩
      · have hhead : (((PUT s (c + 8) 0).free_lists.set i c).getD i 0) = c := by
          rw [hfl]
          simp [List.getD_eq_getElem?_getD, List.getElem?_set_self, hiL]
        simp only [List.nil_append, hhead]
        have hgetc : GET (PUT s (c + 8) 0) c = GET s c := by
          apply GET_PUT_ne
          rw [word_add8]
          omega
        have hchain : chainB s (GET s c) L2t = true := by
          have hx := hL
          simp only [List.nil_append, chainB, Bool.and_eq_true, beq_iff_eq,
            bne_iff_ne] at hx
          rw [hsucc] at hx
          exact hx.2.2
        show chainB { PUT s (c + 8) 0 with
          free_lists := (PUT s (c + 8) 0).free_lists.set i c } c (c :: L2t) = true
        simp only [chainB, Bool.and_eq_true, beq_iff_eq, bne_iff_ne]
        refine ⟨⟨trivial, hc0⟩, ?_⟩
        have hGE : GET { PUT s (c + 8) 0 with
            free_lists := (PUT s (c + 8) 0).free_lists.set i c } c =
            GET (PUT s (c + 8) 0) c := rfl
        rw [hGE, hgetc]
        rw [chainB_ext s _ L2t ?hext (GET s c)]
        · exact hchain
        case hext =>
          intro q hq
          show GET (PUT s (c + 8) 0) q = GET s q
          apply GET_PUT_ne
          rw [word_add8]
          have hq8 : q % 8 = 0 := hal q (by simp [hq])
          have hqc : q ≠ c := by
            have hx := hnd
            simp only [List.nil_append, List.nodup_cons] at hx
            intro heq
            exact hx.2.1 (heq ▸ hq)
          have := hcell q (by simp [hq]) c hcmem hqc
          omega
      · intro p hp
        have h1 := hp c hcmem
        show GET (PUT s (c + 8) 0) p = GET s p
        apply GET_PUT_ne
        rw [word_add8]
        exact h1.2
      · intro j hj
        rw [hfl]
        simp [List.getD_eq_getElem?_getD, List.getElem?_set_ne (fun h => hj h.symm)]
  | cons a L1t =>
    have hgmem1 : (a :: L1t).getLastD 0 ∈ a :: L1t := getLastD_cons_mem L1t a 0
    have hgmem : (a :: L1t).getLastD 0 ∈ (a :: L1t) ++ bp :: L2 :=
      List.mem_append_left _ hgmem1
    have hg0 : (a :: L1t).getLastD 0 ≠ 0 :=
      chainB_nodes_ne_zero s _ _ hL _ hgmem
    have hg8 : (a :: L1t).getLastD 0 % 8 = 0 := hal _ hgmem
    have hpreg : GET s (bp + 8) = (a :: L1t).getLastD 0 := hpre
    cases L2 with
    | nil =>
      have hsuc0 : GET s bp = 0 := by simpa using hsuc
      have hred : mm_remove_fblock_f s bp idxO =
          PUT s ((a :: L1t).getLastD 0) 0 := by
        simp only [mm_remove_fblock_f, NEXT_FBLK, PREV_FBLK, hpreg, hsuc0, hidx]
        rw [if_neg (by simp), if_pos ⟨hg0, trivial⟩]
      rw [hred]
      refine ⟨?_, ?_, by simp [PUT], rfl, rfl, rfl, by simp [PUT], fun j _ => rfl⟩
      · have hfl2 : (PUT s ((a :: L1t).getLastD 0) 0).free_lists.getD i 0 =
            s.free_lists.getD i 0 := rfl
        rw [hfl2]
        apply chain_splice s _ bp [] (a :: L1t) _ (by simp) hL hnd
        · intro q hq hqg
          apply GET_PUT_ne
          exact div8_ne q _ (hal q (by simp at hq ⊢; tauto)) hg8 hqg
        · show GET (PUT s ((a :: L1t).getLastD 0) 0) ((a :: L1t).getLastD 0) = 0
          apply GET_PUT_same _ _ _ _ rfl
          have := hbound _ hgmem
          omega
      · intro p hp
        have h1 := hp _ hgmem
        exact GET_PUT_ne _ _ _ _ h1.1
    | cons c L2t =>
      have hcmem : c ∈ (a :: L1t) ++ bp :: c :: L2t := by simp
      have hsucc : GET s bp = c := by simpa using hsuc
      have hc0 : c ≠ 0 := chainB_nodes_ne_zero s _ _ hL c hcmem
      have hc8 : c % 8 = 0 := hal c hcmem
      have hgc : (a :: L1t).getLastD 0 ≠ c := by
        intro heq
        have hdisj := List.disjoint_of_nodup_append hnd
        exact hdisj hgmem1 (by rw [heq]; simp)
      have hgc8 : (a :: L1t).getLastD 0 ≠ c + 8 := hcell _ hgmem c hcmem hgc
      have hred : mm_remove_fblock_f s bp idxO =
          PUT (PUT s ((a :: L1t).getLastD 0) c) (c + 8) ((a :: L1t).getLastD 0) := by
        simp only [mm_remove_fblock_f, NEXT_FBLK, PREV_FBLK, hpreg, hsucc, hidx]
        rw [if_pos ⟨hg0, hc0⟩]
      rw [hred]
      refine ⟨?_, ?_, by simp [PUT], rfl, rfl, rfl, by simp [PUT], fun j _ => rfl⟩
      · have hfl2 : (PUT (PUT s ((a :: L1t).getLastD 0) c) (c + 8)
            ((a :: L1t).getLastD 0)).free_lists.getD i 0 = s.free_lists.getD i 0 := rfl
        rw [hfl2]
        apply chain_splice s _ bp (c :: L2t) (a :: L1t) _ (by simp) hL hnd
        · intro q hq hqg
          have hq8 : q % 8 = 0 := by
            apply hal
            simp only [List.mem_append, List.mem_cons] at hq ⊢
            tauto
          have hqmem : q ∈ (a :: L1t) ++ bp :: c :: L2t := by
            simp only [List.mem_append, List.mem_cons] at hq ⊢
            tauto
          have houter : GET (PUT (PUT s ((a :: L1t).getLastD 0) c) (c + 8)
              ((a :: L1t).getLastD 0)) q = GET (PUT s ((a :: L1t).getLastD 0) c) q := by
            apply GET_PUT_ne
            rw [word_add8]
            by_cases hqc : q = c
            · subst hqc; omega
            · have := hcell q hqmem c hcmem hqc
              omega
          rw [houter]
          apply GET_PUT_ne
          exact div8_ne q _ hq8 hg8 hqg
        · have houter : GET (PUT (PUT s ((a :: L1t).getLastD 0) c) (c + 8)
              ((a :: L1t).getLastD 0)) ((a :: L1t).getLastD 0) =
              GET (PUT s ((a :: L1t).getLastD 0) c) ((a :: L1t).getLastD 0) := by
            apply GET_PUT_ne
            rw [word_add8]
            omega
          rw [houter]
          show GET (PUT s ((a :: L1t).getLastD 0) c) ((a :: L1t).getLastD 0) = c
          apply GET_PUT_same _ _ _ _ rfl
          have := hbound _ hgmem
          omega
      · intro p hp
        have h1 := hp _ hgmem
        have h2 := hp c hcmem
        have houter : GET (PUT (PUT s ((a :: L1t).getLastD 0) c) (c + 8)
            ((a :: L1t).getLastD 0)) p = GET (PUT s ((a :: L1t).getLastD 0) c) p := by
          apply GET_PUT_ne
          rw [word_add8]
          exact h2.2
        rw [houter]
        exact GET_PUT_ne _ _ _ _ h1.1

theorem putWords_meta (ws : List Nat) : ∀ (s : MMState) (dst : Nat),
    (putWords s dst ws).mem.length = s.mem.length ∧
    (putWords s dst ws).free_lists = s.free_lists ∧
    (putWords s dst ws).brk = s.brk ∧
    (putWords s dst ws).avail = s.avail ∧
    (putWords s dst ws).heap_listp = s.heap_listp := by
  induction ws with
  | nil => intro s dst; exact ⟨rfl, rfl, rfl, rfl, rfl⟩
  | cons w rest ih =>
    intro s dst
    rw [putWords]
    have := ih (PUT s dst w) (dst + 8)
    simpa [PUT] using this

theorem putWords_frame (ws : List Nat) : ∀ (s : MMState) (dst p : Nat),
    (p / 8 < dst / 8 ∨ dst / 8 + ws.length ≤ p / 8) →
    GET (putWords s dst ws) p = GET s p := by
  induction ws with
  | nil => intro s dst p _; rfl
  | cons w rest ih =>
    intro s dst p hp
    rw [putWords]
    rw [ih (PUT s dst w) (dst + 8) p ?hside]
    · apply GET_PUT_ne
      simp only [List.length_cons] at hp
      omega
    case hside =>
      rw [word_add8]
      simp only [List.length_cons] at hp
      omega

theorem putWords_read (ws : List Nat) : ∀ (s : MMState) (dst j : Nat),
    j < ws.length → dst / 8 + j < s.mem.length →
    GET (putWords s dst ws) (dst + 8 * j) = ws.getD j 0 := by
  induction ws with
  | nil => intro s dst j hj _; simp at hj
  | cons w rest ih =>
    intro s dst j hj hb
    cases j with
    | zero =>
      simp only [Nat.mul_zero, Nat.add_zero]
      rw [putWords]
      rw [putWords_frame rest (PUT s dst w) (dst + 8) dst (by rw [word_add8]; omega)]
      rw [GET_PUT_same s dst w dst rfl (by omega)]
      rfl
    | succ k =>
      rw [putWords]
      have harith : dst + 8 * (k + 1) = (dst + 8) + 8 * k := by ring
      rw [harith]
      rw [ih (PUT s dst w) (dst + 8) k (by simpa using hj)
        (by rw [word_add8, PUT_mem_length]; omega)]
      rfl

theorem memWords_meta (s : MMState) (dst src k : Nat) :
    (memWords s dst src k).mem.length = s.mem.length ∧
    (memWords s dst src k).free_lists = s.free_lists ∧
    (memWords s dst src k).brk = s.brk ∧
    (memWords s dst src k).avail = s.avail ∧
    (memWords s dst src k).heap_listp = s.heap_listp :=
  putWords_meta _ s dst

theorem memWords_frame (s : MMState) (dst src k p : Nat)
    (hp : p / 8 < dst / 8 ∨ dst / 8 + k ≤ p / 8) :
    GET (memWords s dst src k) p = GET s p := by
  rw [memWords]
  apply putWords_frame
  simpa using hp

theorem memWords_read (s : MMState) (dst src k j : Nat) (hj : j < k)
    (hb : dst / 8 + j < s.mem.length) :
    GET (memWords s dst src k) (dst + 8 * j) = GET s (src + 8 * j) := by
  rw [memWords]
  rw [putWords_read _ s dst j (by simpa using hj) hb]
  simp [List.getD_eq_getElem?_getD, List.getElem?_map, List.getElem?_range hj]

/-- C9 (amended): grow into the left neighbour.  When the requested
size is not a shrink, the right neighbour path does not apply, the
right neighbour is NOT the epilogue (its size is nonzero — the
amendment: the original claim's precondition also covered an
allocated epilogue, where the code extends the heap instead), and the
left neighbour is free with combined size at least `asize`, then
mm_realloc removes the left neighbour from its bucket (whose index is
recomputed from the left neighbour's size), moves the payload backward
by the left block's size with an overlap-safe move, writes the
combined block's header and footer as `(P + cur, 1)` — the full
combined size, with no tail split even when it exceeds `asize` — and
returns the left neighbour's payload pointer.  `P` is the left block's
size, `cur` the reallocated block's; the chain hypotheses say bucket
`i = mm_find_list_idx P` is a well-formed doubly linked list visiting
`L1 ++ (ptr - P) :: L2` whose other nodes lie outside the combined
block's footprint. -/
theorem claim_C9_grow_into_left (s : MMState) (ptr size P cur : Nat)
    (L1 L2 : List Nat)
    (h0 : ¬size = 0) (hp : ¬ptr = 0)
    (h1 : ¬adjSize size < GET_SIZE s (HDRP ptr))
    (h2 : ¬(GET_ALLOC s (HDRP (NEXT_BLKP s ptr)) = 0 ∧
      GET_SIZE s (HDRP ptr) + GET_SIZE s (HDRP (NEXT_BLKP s ptr)) ≥ adjSize size))
    (h3 : ¬GET_SIZE s (HDRP (NEXT_BLKP s ptr)) = 0)
    (h4 : GET_ALLOC s (HDRP (PREV_BLKP s ptr)) = 0 ∧
      GET_SIZE s (HDRP ptr) + GET_SIZE s (HDRP (PREV_BLKP s ptr)) ≥ adjSize size)
    (hP : GET_SIZE s (ptr - 16) = P)
    (hPh : GET_SIZE s (HDRP (ptr - P)) = P)
    (hcur : GET_SIZE s (HDRP ptr) = cur)
    (hP32 : 32 ≤ P) (hcur32 : 32 ≤ cur)
    (hple : P + 16 ≤ ptr) (hptr8 : ptr % 8 = 0)
    (hiL : mm_find_list_idx P < s.free_lists.length)
    (hchain : chainB s (s.free_lists.getD (mm_find_list_idx P) 0)
      (L1 ++ (ptr - P) :: L2) = true)
    (hback : backB s 0 (L1 ++ (ptr - P) :: L2) = true)
    (hnd : (L1 ++ (ptr - P) :: L2).Nodup)
    (hal : ∀ q ∈ L1 ++ (ptr - P) :: L2, q % 8 = 0)
    (hcell : ∀ a ∈ L1 ++ (ptr - P) :: L2, ∀ b ∈ L1 ++ (ptr - P) :: L2, a ≠ b → a ≠ b + 8)
    (hboundL : ∀ q ∈ L1 ++ (ptr - P) :: L2, q / 8 + 1 < s.mem.length)
    (hsep : ∀ q ∈ L1 ++ (ptr - P) :: L2, q ≠ ptr - P →
      q + 16 ≤ ptr - P - 8 ∨ ptr - P + (P + cur) ≤ q)
    (hbound2 : (ptr - P) / 8 + (P + cur) / 8 ≤ s.mem.length) :
    (mm_realloc s ptr size).1 = ptr - P ∧
    GET (mm_realloc s ptr size).2 (HDRP (ptr - P)) = PACK (P + cur) 1 ∧
    GET (mm_realloc s ptr size).2 (ptr - P + (P + cur) - 16) = PACK (P + cur) 1 ∧
    (∀ k, k < cur / 8 →
      GET (mm_realloc s ptr size).2 (ptr - P + 8 * k) = GET s (ptr + 8 * k)) ∧
    chainB (mm_realloc s ptr size).2
      ((mm_realloc s ptr size).2.free_lists.getD (mm_find_list_idx P) 0)
      (L1 ++ L2) = true := by
  have hP16 : P % 16 = 0 := by rw [← hP]; exact GET_SIZE_mod_16 s (ptr - 16)
  have hc16 : cur % 16 = 0 := by rw [← hcur]; exact GET_SIZE_mod_16 s (HDRP ptr)
  have hnp : PREV_BLKP s ptr = ptr - P := by rw [PREV_BLKP, hP]
  have hnp8 : (ptr - P) % 8 = 0 := by omega
  have hnpmem : ptr - P ∈ L1 ++ (ptr - P) :: L2 := by simp
  have hidxeq : (none : Option Nat).getD (flFindIdx s (ptr - P)) = mm_find_list_idx P := by
    simp [flFindIdx, hPh]
  have hrem := remove_fblock_chain s (mm_find_list_idx P) (ptr - P) L1 L2 none hiL
    hchain hback hnd hal hcell hboundL hidxeq
  obtain ⟨hchain1, hframe1, hlen1, _hbrk1, _havail1, _hlp1, hfll1, _hheads1⟩ := hrem
  -- the removal does not touch the words of the combined block's footprint
  have hfr : ∀ p : Nat, p % 8 = 0 → ptr - 8 ≤ p → p < ptr + cur →
      GET (mm_remove_fblock_f s (ptr - P) none) p = GET s p := by
    intro p hp8 hlo hhi
    apply hframe1
    intro q hq
    by_cases hqnp : q = ptr - P
    · subst hqnp
      omega
    · have hq8 : q % 8 = 0 := hal q hq
      rcases hsep q hq hqnp with hleft | hright
      · omega
      · omega
  have hcount : GET_SIZE (mm_remove_fblock_f s (ptr - P) none) (HDRP ptr) = cur := by
    rw [GET_SIZE, HDRP, hfr (ptr - 8) (by omega) (by omega) (by omega)]
    rw [GET_SIZE, HDRP] at hcur
    exact hcur
  have hred : mm_realloc s ptr size =
      (ptr - P,
       PUT
         (PUT
           (memWords (mm_remove_fblock_f s (ptr - P) none) (ptr - P) ptr
             (GET_SIZE (mm_remove_fblock_f s (ptr - P) none) (HDRP ptr) / 8))
           (HDRP (ptr - P))
           (PACK (GET_SIZE s (HDRP (ptr - P)) + GET_SIZE s (HDRP ptr)) 1))
         (FTRP
           (PUT
             (memWords (mm_remove_fblock_f s (ptr - P) none) (ptr - P) ptr
               (GET_SIZE (mm_remove_fblock_f s (ptr - P) none) (HDRP ptr) / 8))
             (HDRP (ptr - P))
             (PACK (GET_SIZE s (HDRP (ptr - P)) + GET_SIZE s (HDRP ptr)) 1))
           (ptr - P))
         (PACK (GET_SIZE s (HDRP (ptr - P)) + GET_SIZE s (HDRP ptr)) 1)) := by
    simp only [mm_realloc, if_neg h0, if_neg hp, if_neg h1, if_neg h2, if_neg h3,
      if_pos h4]
    simp only [hnp]
  rw [hPh, hcur, hcount] at hred
  -- names for the intermediate states
  have hlenS2 : (memWords (mm_remove_fblock_f s (ptr - P) none) (ptr - P) ptr
      (cur / 8)).mem.length = s.mem.length := by
    rw [(memWords_meta _ _ _ _).1, hlen1]
  have hftr : FTRP
      (PUT (memWords (mm_remove_fblock_f s (ptr - P) none) (ptr - P) ptr (cur / 8))
        (HDRP (ptr - P)) (PACK (P + cur) 1))
      (ptr - P) = ptr - P + (P + cur) - 16 := by
    rw [FTRP, GET_SIZE]
    rw [GET_PUT_same _ _ _ _ rfl (by rw [hlenS2]; simp only [HDRP]; omega)]
    rw [PACK_one_size (P + cur) (by omega)]
  rw [hftr] at hred
  rw [hred]
  -- word indices of the writes after the removal:
  -- header (ptr-P)/8 - 1, payload [(ptr-P)/8, (ptr-P)/8 + cur/8),
  -- footer (ptr-P)/8 + (P+cur)/8 - 2
  refine ⟨rfl, ?_, ?_, ?_, ?_⟩
  · -- header carries (P + cur, 1)
    rw [GET_PUT_ne _ _ _ _ (by simp only [HDRP]; omega)]
    rw [GET_PUT_same _ _ _ _ rfl (by rw [hlenS2]; simp only [HDRP]; omega)]
  · -- footer carries (P + cur, 1)
    rw [GET_PUT_same _ _ _ _ rfl (by rw [PUT_mem_length, hlenS2]; omega)]
  · -- the payload was moved back by P bytes
    intro k hk
    rw [GET_PUT_ne _ _ _ _ (by omega)]
    rw [GET_PUT_ne _ _ _ _ (by simp only [HDRP]; omega)]
    rw [memWords_read _ _ _ _ k hk (by rw [hlen1]; omega)]
    exact hfr (ptr + 8 * k) (by omega) (by omega) (by omega)
  · -- the left neighbour is gone from its bucket chain
    have hflS4 : (PUT
        (PUT (memWords (mm_remove_fblock_f s (ptr - P) none) (ptr - P) ptr (cur / 8))
          (HDRP (ptr - P)) (PACK (P + cur) 1))
        (ptr - P + (P + cur) - 16) (PACK (P + cur) 1)).free_lists =
        (mm_remove_fblock_f s (ptr - P) none).free_lists := by
      rw [PUT_free_lists, PUT_free_lists, (memWords_meta _ _ _ _).2.1]
    have hnpnot : ∀ q ∈ L1 ++ L2, q ≠ ptr - P := by
      intro q hq heq
      rcases List.mem_append.mp hq with hq1 | hq2
      · exact List.disjoint_of_nodup_append hnd hq1 (by rw [← heq] at hnpmem ⊢; simp) |>.elim
      · have hnd2 : ((ptr - P) :: L2).Nodup := hnd.of_append_right
        exact (List.nodup_cons.mp hnd2).1 (heq ▸ hq2)
    show chainB _ ((PUT (PUT (memWords (mm_remove_fblock_f s (ptr - P) none)
      (ptr - P) ptr (cur / 8)) (HDRP (ptr - P)) (PACK (P + cur) 1))
      (ptr - P + (P + cur) - 16) (PACK (P + cur) 1)).free_lists.getD
        (mm_find_list_idx P) 0) (L1 ++ L2) = true
    rw [hflS4]
    rw [chainB_ext (mm_remove_fblock_f s (ptr - P) none) _ (L1 ++ L2) ?hext]
    · exact hchain1
    case hext =>
      intro q hq
      have hq8 : q % 8 = 0 := hal q (by
        rcases List.mem_append.mp hq with hq1 | hq2
        · exact List.mem_append_left _ hq1
        · exact List.mem_append_right _ (List.mem_cons_of_mem _ hq2))
      have hqsep := hsep q (by
        rcases List.mem_append.mp hq with hq1 | hq2
        · exact List.mem_append_left _ hq1
        · exact List.mem_append_right _ (List.mem_cons_of_mem _ hq2)) (hnpnot q hq)
      rw [GET_PUT_ne _ _ _ _ (by omega)]
      rw [GET_PUT_ne _ _ _ _ (by simp only [HDRP]; omega)]
      apply memWords_frame
      omega

/-- C9 witness: the grow-into-left theorem applied to scenario F: the
realloc of b (80 bytes at 80) to 88 bytes returns the left neighbour's
payload pointer 32, writes the combined 128-byte allocated header, and
leaves bucket 1 empty. -/
theorem claim_C9_witness :
    (mm_realloc scenFpre 80 88).1 = 32 ∧
    GET (mm_realloc scenFpre 80 88).2 (HDRP 32) = PACK 128 1 ∧
    chainB (mm_realloc scenFpre 80 88).2
      ((mm_realloc scenFpre 80 88).2.free_lists.getD (mm_find_list_idx 48) 0)
      ([] ++ []) = true := by
  have h := claim_C9_grow_into_left scenFpre 80 88 48 80 [] []
    (by decide) (by decide) (by decide) (by decide) (by decide) (by decide)
    (by decide) (by decide) (by decide) (by decide) (by decide) (by decide)
    (by decide) (by decide) (by decide) (by decide) (by decide) (by decide)
    (by decide) (by decide) (by decide) (by decide)
  exact ⟨h.1, h.2.1, h.2.2.2.2⟩
